import Mathlib

/-!
# knxmetrics: event dispatch, configuration validation, lifecycle and authentication

A shallow embedding of the Go package `knxmetrics` (files `config.go`, `knx.go`,
`server.go`, `setup.go`).

Conventions of the embedding:

* a Go `string` / `[]byte` is a list of bytes (`Fin 256`);
* a Go `error` result is an `Option GoError`, `none` standing for `nil`;
* a finite `float64` is the rational number it denotes (the conversions
  `float64(v)` of the source are exact);
* effects on the outside world (gauge writes, log events) are returned as lists,
  in the order in which the code performs them;
* functions of other modules (the `dpt` unpackers, the sub-config validators of
  `knxrpc`, the calls made by `setup`, the transport calls) are parameters;
* the functions of the Go standard library that `authenticateStaticSecretKey` calls
  (`strings.CutPrefix`, `strings.TrimSpace`, `subtle.ConstantTimeCompare`) are embedded
  on byte sequences.
-/

namespace KnxMetrics

/-- Go strings and byte slices: finite sequences of bytes. -/
abbrev GoString := List (Fin 256)

/-- The UTF-8 bytes of a Lean string literal, used to write down concrete Go strings. -/
def str (s : String) : GoString :=
  (s.toList.flatMap String.utf8EncodeChar).map (fun b => b.val)

/-- Go errors, as far as `errors.Is` can tell them apart: the two sentinels the package
tests for, an error carrying only text (made by `errors.New`, or by `fmt.Errorf` with the
verb `%s`, which keeps no link to its argument), and an error that unwraps to another. -/
inductive GoError where
  | contextCanceled : GoError
  | errServerClosed : GoError
  | text : GoString → GoError
  | wrap : GoString → GoError → GoError
  deriving DecidableEq, Repr

/-- The event kinds of `v1.Event`. -/
inductive Event where
  | EVENT_UNSPECIFIED
  | EVENT_READ
  | EVENT_RESPONSE
  | EVENT_WRITE
  deriving DecidableEq, Repr

/-- The message `v1.SubscribeResponse`, one inbound bus event. -/
structure SubscribeResponse where
  GroupAddress : GoString
  Event : Event
  Data : List (Fin 256)
  deriving DecidableEq, Repr

/-- The struct `MetricAttribute` of `config.go`. -/
structure MetricAttribute where
  Name : GoString
  Value : GoString
  deriving DecidableEq, Repr

/-- The struct `Mapping` of `config.go`. `gauge` is the handle bound by
`setupOpenTelemetry`, `attributeSet` the attribute set built there. -/
structure Mapping where
  MetricName : GoString
  MetricType : Int
  MetricDescription : GoString
  MetricAttributes : List MetricAttribute
  KNXGroupAddress : GoString
  gauge : Nat
  attributeSet : List (GoString × GoString)
  deriving DecidableEq, Repr

/-- One call `gauge.Record(ctx, value, metric.WithAttributeSet(attributeSet))`. -/
structure GaugeWrite where
  gauge : Nat
  value : ℚ
  attributeSet : List (GoString × GoString)
  deriving DecidableEq

/-- The log events `dispatchBusMessage` emits. -/
inductive LogEntry where
  | warnUnknownGroupAddress : GoString → LogEntry
  | traceReceivedEvent : GoString → GoString → List MetricAttribute → LogEntry
  | warnUnknownDptType : GoString → Int → LogEntry
  deriving DecidableEq

/-- The unpackers of package `dpt` used by the dispatcher. Each takes the payload and
yields the unpacked value, or `none` when `Unpack` returns an error. -/
structure Dpt where
  unpack1001 : List (Fin 256) → Option Bool
  unpack5001 : List (Fin 256) → Option ℚ
  unpack9001 : List (Fin 256) → Option ℚ
  unpack9004 : List (Fin 256) → Option ℚ
  unpack9005 : List (Fin 256) → Option ℚ

/-- What a run of a piece of the subscriber does and returns: the returned error, the
gauge writes and the log events, each in the order performed. -/
structure Outcome where
  err : Option GoError
  writes : List GaugeWrite
  logs : List LogEntry
  deriving DecidableEq

/-- The lookup loop at the head of `dispatchBusMessage`: the first mapping, in list
order, whose `KNXGroupAddress` equals the address of the event. -/
def findMapping (mappings : List Mapping) (addr : GoString) : Option Mapping :=
  match mappings with
  | [] => none
  | m :: rest => if addr = m.KNXGroupAddress then some m else findMapping rest addr

/-- The `switch` of `dispatchBusMessage`: `none` in the `default` branch, otherwise the
value of `f` after the branch taken. `f` starts at `0.0` and is assigned only when
`Unpack` succeeds. -/
def decodeSwitch (dpt : Dpt) (i : Int) (data : List (Fin 256)) : Option ℚ :=
  if 1000 < i ∧ i < 2000 then
    match dpt.unpack1001 data with
    | some v => if v then some 1 else some 0
    | none => some 0
  else if i = 5001 then
    match dpt.unpack5001 data with
    | some v => some v
    | none => some 0
  else if i = 9001 then
    match dpt.unpack9001 data with
    | some v => some v
    | none => some 0
  else if i = 9004 then
    match dpt.unpack9004 data with
    | some v => some v
    | none => some 0
  else if i = 9005 then
    match dpt.unpack9005 data with
    | some v => some v
    | none => some 0
  else none

/-- The method `Server.dispatchBusMessage` of `knx.go`, on the mapping list of the
server's config. -/
def dispatchBusMessage (dpt : Dpt) (mappings : List Mapping) (res : SubscribeResponse) :
    Outcome :=
  match findMapping mappings res.GroupAddress with
  | none => ⟨none, [], [.warnUnknownGroupAddress res.GroupAddress]⟩
  | some mapping =>
    let ev := LogEntry.traceReceivedEvent res.GroupAddress mapping.MetricName
      mapping.MetricAttributes
    match decodeSwitch dpt mapping.MetricType res.Data with
    | none => ⟨none, [], [ev, .warnUnknownDptType res.GroupAddress mapping.MetricType]⟩
    | some f => ⟨none, [⟨mapping.gauge, f, mapping.attributeSet⟩], [ev]⟩

/-- The text `err.Error()` of an error, as the verb `%s` prints it. -/
def GoError.Error : GoError → GoString
  | .contextCanceled => str "context canceled"
  | .errServerClosed => str "http: Server closed"
  | .text s => s
  | .wrap s _ => s

/-- The test `errors.Is(err, target)` for a sentinel `target`: `err` is the sentinel
itself or unwraps to it. An error that carries only text matches no sentinel. -/
def errorsIs : GoError → GoError → Bool
  | .contextCanceled, .contextCanceled => true
  | .errServerClosed, .errServerClosed => true
  | .wrap _ inner, target => errorsIs inner target
  | _, _ => false

/-- A subscription stream as the receive loop sees it: the messages `Receive` delivers
before it reports the end, and the value of `stream.Err()` after that. -/
structure Stream where
  msgs : List SubscribeResponse
  err : Option GoError

/-- The receiver loop of `startKNXSubscriber` (the `for stream.Receive()` block): events
that are neither RESPONSE nor WRITE are skipped by `continue`, every other event is
dispatched, and a dispatch error ends the loop. -/
def receiveLoop (dpt : Dpt) (mappings : List Mapping) : List SubscribeResponse → Outcome
  | [] => ⟨none, [], []⟩
  | res :: rest =>
    if res.Event ≠ Event.EVENT_RESPONSE ∧ res.Event ≠ Event.EVENT_WRITE then
      receiveLoop dpt mappings rest
    else
      let r := dispatchBusMessage dpt mappings res
      match r.err with
      | some e => ⟨some e, r.writes, r.logs⟩
      | none =>
        let t := receiveLoop dpt mappings rest
        ⟨t.err, r.writes ++ t.writes, r.logs ++ t.logs⟩

/-- The method `Server.startKNXSubscriber` of `knx.go`. `subscribe` is the call
`rpcClient.Subscribe` on the list of mapped group addresses. -/
def startKNXSubscriber (dpt : Dpt) (mappings : List Mapping)
    (subscribe : List GoString → Except GoError Stream) : Outcome :=
  let groupAddresses := mappings.map (fun mapping => mapping.KNXGroupAddress)
  match subscribe groupAddresses with
  | .error err => ⟨some err, [], []⟩
  | .ok stream =>
    let r := receiveLoop dpt mappings stream.msgs
    match r.err with
    | some e => ⟨some e, r.writes, r.logs⟩
    | none =>
      match stream.err with
      | some err =>
        if !errorsIs err .contextCanceled then
          ⟨some (.text (str "knxrpc stream closed: " ++ err.Error)), r.writes, r.logs⟩
        else ⟨none, r.writes, r.logs⟩
      | none => ⟨none, r.writes, r.logs⟩

/-- The fields of `knxrpc.AuthConfig` the package reads. -/
structure AuthConfig where
  Enabled : Bool
  Header : GoString
  Scheme : GoString
  SecretKey : GoString
  deriving DecidableEq, Repr

/-- The struct `ServerConfig` of `config.go`. -/
structure ServerConfig where
  Host : GoString
  Port : Int
  Path : GoString
  LogRequests : Bool
  Auth : AuthConfig
  deriving DecidableEq, Repr

/-- The struct `Config` of `config.go`, over the type `C` of `knxrpc.ClientConfig`.
The logging config, which no function here reads, is left out. -/
structure Config (C : Type) where
  KNXRPC : C
  Server : ServerConfig
  Mappings : List Mapping

/-- The `Validate` methods of package `knxrpc` that the config validation calls. -/
structure Knxrpc (C : Type) where
  clientValidate : C → Option GoError
  authValidate : AuthConfig → Option GoError

/-- The method `ServerConfig.Validate` of `config.go`. -/
def ServerConfig.Validate {C : Type} (k : Knxrpc C) (c : ServerConfig) : Option GoError :=
  if c.Host.length = 0 then some (.text (str "missing server.host"))
  else if c.Port = 0 then some (.text (str "missing server.port"))
  else if c.Path.length = 0 then some (.text (str "missing server.path"))
  else match k.authValidate c.Auth with
    | some err => some err
    | none => none

/-- The method `Mapping.Validate` of `config.go`. -/
def Mapping.Validate (c : Mapping) : Option GoError :=
  if c.MetricName.length = 0 then some (.text (str "missing metricName"))
  else if c.MetricType = 0 then some (.text (str "missing metricType"))
  else if c.KNXGroupAddress.length = 0 then some (.text (str "missing knxGroupAddress"))
  else none

/-- The loop over the mappings in `Config.Validate`, from index `i` on: the first
mapping that fails to validate yields the error, with its index and name in the text. -/
def validateMappings : Nat → List Mapping → Option GoError
  | _, [] => none
  | i, mapping :: rest =>
    match mapping.Validate with
    | some err =>
      some (.text (str "mapping " ++ str (toString i) ++ str " (" ++ mapping.MetricName
        ++ str "): " ++ err.Error))
    | none => validateMappings (i + 1) rest

/-- The method `Config.Validate` of `config.go`. -/
def Config.Validate {C : Type} (k : Knxrpc C) (c : Config C) : Option GoError :=
  match k.clientValidate c.KNXRPC with
  | some err => some err
  | none =>
    match c.Server.Validate k with
    | some err => some err
    | none =>
      if c.Mappings.length = 0 then some (.text (str "missing mappings"))
      else validateMappings 0 c.Mappings

/-- The logger held by a server: the one handed to `New`, or `zerolog.Nop()`. -/
inductive Logger where
  | nop : Logger
  | provided : Nat → Logger
  deriving DecidableEq, Repr

/-- The fields of the struct `Server` that `New` sets. -/
structure Server (C : Type) where
  config : Config C
  log : Logger

/-- The function `New` of `server.go`: the pair of the server and the error it
returns, `none` standing for `nil` in both places. -/
def New {C : Type} (k : Knxrpc C) (config : Option (Config C)) (logger : Option Logger) :
    Option (Server C) × Option GoError :=
  match config with
  | none => (none, some (.text (str "missing config")))
  | some config =>
    match config.Validate k with
    | some err => (none, some (.text (str "config: " ++ err.Error)))
    | none =>
      let logger := match logger with
        | none => Logger.nop
        | some l => l
      (some ⟨config, logger⟩, none)

/-- The constant `utf8.RuneError`. -/
def RuneError : Nat := 0xFFFD

/-- The constant `utf8.RuneSelf`: bytes below it are single-byte runes. -/
def RuneSelf : Nat := 0x80

/-- The function `utf8.DecodeRuneInString`: the first rune of `s` and its width in bytes;
`(RuneError, 0)` for the empty string and `(RuneError, 1)` for an invalid encoding. The
table `first` and the accept ranges of the second byte are written out as comparisons. -/
def DecodeRuneInString (s : GoString) : Nat × Nat :=
  match s with
  | [] => (RuneError, 0)
  | s0 :: t =>
    if s0.val < 0x80 then (s0.val, 1)
    else if s0.val < 0xC2 ∨ 0xF4 < s0.val then (RuneError, 1)
    else
      let sz := if s0.val < 0xE0 then 2 else if s0.val < 0xF0 then 3 else 4
      let lo := if s0.val = 0xE0 then 0xA0 else if s0.val = 0xF0 then 0x90 else 0x80
      let hi := if s0.val = 0xED then 0x9F else if s0.val = 0xF4 then 0x8F else 0xBF
      if s.length < sz then (RuneError, 1)
      else
        match t with
        | [] => (RuneError, 1)
        | s1 :: t1 =>
          if s1.val < lo ∨ hi < s1.val then (RuneError, 1)
          else if sz ≤ 2 then (((s0.val &&& 0x1F) <<< 6) ||| (s1.val &&& 0x3F), 2)
          else
            match t1 with
            | [] => (RuneError, 1)
            | s2 :: t2 =>
              if s2.val < 0x80 ∨ 0xBF < s2.val then (RuneError, 1)
              else if sz ≤ 3 then
                (((s0.val &&& 0x0F) <<< 12) ||| ((s1.val &&& 0x3F) <<< 6)
                  ||| (s2.val &&& 0x3F), 3)
              else
                match t2 with
                | [] => (RuneError, 1)
                | s3 :: _ =>
                  if s3.val < 0x80 ∨ 0xBF < s3.val then (RuneError, 1)
                  else
                    (((s0.val &&& 0x07) <<< 18) ||| ((s1.val &&& 0x3F) <<< 12)
                      ||| ((s2.val &&& 0x3F) <<< 6) ||| (s3.val &&& 0x3F), 4)

/-- The function `utf8.RuneStart`: the byte is not a continuation byte. -/
def RuneStart (b : Fin 256) : Bool := (b.val &&& 0xC0) != 0x80

/-- The function `utf8.DecodeLastRuneInString`: the last rune of `s` and its width. The
backward scan looks at the positions `end-2` down to `lim = max (end-4) 0` for a rune
start and stops one below `lim` (not below `0`) when there is none. -/
def DecodeLastRuneInString (s : GoString) : Nat × Nat :=
  let n := s.length
  if n = 0 then (RuneError, 0)
  else
    let r := (s.getD (n - 1) 0).val
    if r < RuneSelf then (r, 1)
    else
      let lim := n - 4
      let cands := (List.range (n - 1 - lim)).map (fun k => n - 2 - k)
      let start := (cands.find? (fun p => RuneStart (s.getD p 0))).getD (lim - 1)
      let d := DecodeRuneInString (s.drop start)
      if start + d.2 ≠ n then (RuneError, 1) else d

/-- The function `unicode.IsSpace`. -/
def IsSpace (r : Nat) : Bool :=
  if r ≤ 0xFF then
    r = 0x09 ∨ r = 0x0A ∨ r = 0x0B ∨ r = 0x0C ∨ r = 0x0D ∨ r = 0x20 ∨ r = 0x85 ∨ r = 0xA0
  else
    r = 0x1680 ∨ (0x2000 ≤ r ∧ r ≤ 0x200A) ∨ r = 0x2028 ∨ r = 0x2029 ∨ r = 0x202F
      ∨ r = 0x205F ∨ r = 0x3000

/-- The loop of `strings.indexFunc` (a `range` over the string), at byte index `i`, with
`skip` bytes of the current rune still to pass. -/
def indexFuncFrom (f : Nat → Bool) (truth : Bool) : Nat → Nat → GoString → Int
  | _, _, [] => -1
  | i, skip + 1, _ :: t => indexFuncFrom f truth (i + 1) skip t
  | i, 0, b :: t =>
    let d := DecodeRuneInString (b :: t)
    if f d.1 = truth then (i : Int) else indexFuncFrom f truth (i + 1) (d.2 - 1) t

/-- The function `strings.indexFunc`: the byte index of the first rune `r` with
`f r = truth`, or `-1`. -/
def indexFunc (s : GoString) (f : Nat → Bool) (truth : Bool) : Int :=
  indexFuncFrom f truth 0 0 s

/-- The loop of `strings.lastIndexFunc` on the reversed prefix `s[0:i]`, with `skip` bytes
of the rune just decoded still to pass. -/
def lastIndexFuncFrom (f : Nat → Bool) (truth : Bool) : Nat → GoString → Int
  | _, [] => -1
  | skip + 1, _ :: t => lastIndexFuncFrom f truth skip t
  | 0, b :: t =>
    let d := DecodeLastRuneInString (b :: t).reverse
    if f d.1 = truth then (((b :: t).length - d.2 : Nat) : Int)
    else lastIndexFuncFrom f truth (d.2 - 1) t

/-- The function `strings.lastIndexFunc`: the byte index of the last rune `r` with
`f r = truth`, or `-1`. -/
def lastIndexFunc (s : GoString) (f : Nat → Bool) (truth : Bool) : Int :=
  lastIndexFuncFrom f truth 0 s.reverse

/-- The function `strings.TrimLeftFunc`. -/
def TrimLeftFunc (s : GoString) (f : Nat → Bool) : GoString :=
  let i := indexFunc s f false
  if i = -1 then [] else s.drop i.toNat

/-- The function `strings.TrimRightFunc`. -/
def TrimRightFunc (s : GoString) (f : Nat → Bool) : GoString :=
  let i := lastIndexFunc s f false
  if 0 ≤ i ∧ RuneSelf ≤ (s.getD i.toNat 0).val then
    s.take (i.toNat + (DecodeRuneInString (s.drop i.toNat)).2)
  else s.take (i + 1).toNat

/-- The function `strings.TrimFunc`. -/
def TrimFunc (s : GoString) (f : Nat → Bool) : GoString :=
  TrimRightFunc (TrimLeftFunc s f) f

/-- The table `asciiSpace` of package `strings`. -/
def asciiSpace (c : Fin 256) : Bool :=
  c.val = 0x09 ∨ c.val = 0x0A ∨ c.val = 0x0B ∨ c.val = 0x0C ∨ c.val = 0x0D ∨ c.val = 0x20

/-- The second loop of `strings.TrimSpace`, on the reverse of `s[start:stop]`. -/
def trimSpaceStop : GoString → GoString
  | [] => []
  | c :: t =>
    if RuneSelf ≤ c.val then TrimRightFunc (c :: t).reverse IsSpace
    else if !asciiSpace c then (c :: t).reverse
    else trimSpaceStop t

/-- The function `strings.TrimSpace`: the first loop walks over leading ASCII space, the
second over trailing ASCII space, and a byte from `RuneSelf` on hands over to the
rune-wise `TrimFunc` / `TrimRightFunc`. -/
def TrimSpace : GoString → GoString
  | [] => []
  | c :: t =>
    if RuneSelf ≤ c.val then TrimFunc (c :: t) IsSpace
    else if !asciiSpace c then trimSpaceStop (c :: t).reverse
    else TrimSpace t

/-- The function `strings.HasPrefix`. -/
def HasPrefix (s pre : GoString) : Bool :=
  pre.length ≤ s.length ∧ s.take pre.length = pre

/-- The function `strings.CutPrefix`. -/
def CutPrefix (s pre : GoString) : GoString × Bool :=
  if !HasPrefix s pre then (s, false) else (s.drop pre.length, true)

/-- The function `subtle.ConstantTimeByteEq`, `int((uint32(x^y) - 1) >> 31)`, the
subtraction being taken modulo `2^32`. -/
def ConstantTimeByteEq (x y : Nat) : Nat :=
  (((x ^^^ y) % 2 ^ 32 + (2 ^ 32 - 1)) % 2 ^ 32) / 2 ^ 31

/-- The function `subtle.ConstantTimeCompare`. -/
def ConstantTimeCompare (x y : List (Fin 256)) : Nat :=
  if x.length ≠ y.length then 0
  else
    let v := (x.zip y).foldl (fun v p => v ||| (p.1.val ^^^ p.2.val)) 0
    ConstantTimeByteEq v 0

/-- The package variable `ErrInvalidAuthCredentials`. -/
def ErrInvalidAuthCredentials : GoError := .text (str "invalid auth credentials")

/-- The method `Server.authenticateStaticSecretKey` of `setup.go`, on the auth config
of the server. -/
def authenticateStaticSecretKey (auth : AuthConfig) (val : GoString) : Option GoError :=
  let val := (CutPrefix val (auth.Scheme ++ str " ")).1
  let val := TrimSpace val
  if ConstantTimeCompare val auth.SecretKey ≠ 1 then some ErrInvalidAuthCredentials
  else none

/-- The calls into other packages that `setup` makes: `knxrpc.NewClient`,
`prometheus.New`, `meter.Float64Gauge` (by name and description), `attribute.NewSet`
and `url.JoinPath("/", path)`. -/
structure SetupEnv where
  newClient : Option GoError
  prometheusNew : Option GoError
  float64Gauge : GoString → GoString → Except GoError Nat
  newSet : List (GoString × GoString) → List (GoString × GoString)
  joinPath : GoString → Except GoError GoString

/-- The loop of `setupOpenTelemetry` over the mappings, from index `i` on: each mapping
gets its gauge and its attribute set; a gauge that cannot be made ends the loop with an
error naming the mapping. -/
def bindGauges (env : SetupEnv) : Nat → List Mapping → Except GoError (List Mapping)
  | _, [] => .ok []
  | i, mapping :: rest =>
    match env.float64Gauge mapping.MetricName mapping.MetricDescription with
    | .error err =>
      .error (.text (str "mapping " ++ str (toString i) ++ str " (" ++ mapping.MetricName
        ++ str "): " ++ err.Error))
    | .ok g =>
      let kvs := mapping.MetricAttributes.map (fun kv => (kv.Name, kv.Value))
      match bindGauges env (i + 1) rest with
      | .error err => .error err
      | .ok bound =>
        .ok (⟨mapping.MetricName, mapping.MetricType, mapping.MetricDescription,
          mapping.MetricAttributes, mapping.KNXGroupAddress, g, env.newSet kvs⟩ :: bound)

/-- The method `Server.setupOpenTelemetry` of `setup.go`: the mappings with gauges and
attribute sets bound, or the error. -/
def setupOpenTelemetry (env : SetupEnv) (mappings : List Mapping) :
    Except GoError (List Mapping) :=
  match env.prometheusNew with
  | some err => .error err
  | none => bindGauges env 0 mappings

/-- The error result of the method `Server.setupWebserver` of `setup.go`. -/
def setupWebserver (env : SetupEnv) (server : ServerConfig) : Option GoError :=
  match env.joinPath server.Path with
  | .error err => some (.text (str "unable to build metrics.path: " ++ err.Error))
  | .ok _ => none

/-- The method `Server.setup` of `setup.go`: the mappings as bound by
`setupOpenTelemetry`, or the first error of the three setup steps. -/
def setup {C : Type} (env : SetupEnv) (config : Config C) : Except GoError (List Mapping) :=
  match env.newClient with
  | some err => .error err
  | none =>
    match setupOpenTelemetry env config.Mappings with
    | .error err => .error err
    | .ok mappings =>
      match setupWebserver env config.Server with
      | some err => .error err
      | none => .ok mappings

/-- The tasks `Start` hands to the error group: the bus subscriber, the web server, the
delayed "listening on" message, and the startup request for all current values. -/
inductive GroupTask where
  | subscriber
  | webserver
  | info
  | refresh
  deriving DecidableEq, Repr

/-- The web server task of `Start`: the result of `e.Start`, with `http.ErrServerClosed`
turned into `nil`. -/
def webserverTask (echoStart : Option GoError) : Option GoError :=
  match echoStart with
  | some err => if !errorsIs err .errServerClosed then some err else none
  | none => none

/-- The task of `Start` that asks for all current values: one `Publish` of a READ event
per mapping, in list order; the first failing call ends the task with an error made by
`fmt.Errorf("unable to initially read values: %s", err)`. -/
def refreshTask (publish : GoString → Option GoError) : List Mapping → Option GoError
  | [] => none
  | mapping :: rest =>
    match publish mapping.KNXGroupAddress with
    | some err => some (.text (str "unable to initially read values: " ++ err.Error))
    | none => refreshTask publish rest

/-- The method `Wait` of `errgroup.Group`: the first non-nil error returned by a task,
the results being listed in the order in which the tasks return. -/
def groupWait : List (Option GoError) → Option GoError
  | [] => none
  | some err :: _ => some err
  | none :: rest => groupWait rest

/-- What the outside world does during one run of `Start`: the results of the setup
calls, of `rpcClient.Subscribe`, of `e.Start` and of each `rpcClient.Publish`, and the
order in which the four tasks return. -/
structure StartEnv where
  setup : SetupEnv
  subscribe : List GoString → Except GoError Stream
  echoStart : Option GoError
  publish : GoString → Option GoError
  order : List GroupTask

/-- The result of one task of `Start`, on the mappings bound by `setup`. -/
def taskResult (dpt : Dpt) (env : StartEnv) (mappings : List Mapping) :
    GroupTask → Option GoError
  | .subscriber => (startKNXSubscriber dpt mappings env.subscribe).err
  | .webserver => webserverTask env.echoStart
  | .info => none
  | .refresh => refreshTask env.publish mappings

/-- The method `Server.Start` of `server.go`: the error it returns. -/
def Start {C : Type} (dpt : Dpt) (env : StartEnv) (config : Config C) : Option GoError :=
  match setup env.setup config with
  | .error err => some err
  | .ok mappings =>
    match groupWait (env.order.map (taskResult dpt env mappings)) with
    | some err => if !errorsIs err .contextCanceled then some err else none
    | none => none

/-- The kinds for which the `switch` of `dispatchBusMessage` takes a decoding branch:
the conditions of its five `case` lines. -/
def recognizedKind (i : Int) : Prop :=
  (1000 < i ∧ i < 2000) ∨ i = 5001 ∨ i = 9001 ∨ i = 9004 ∨ i = 9005

instance (i : Int) : Decidable (recognizedKind i) := by
  unfold recognizedKind; infer_instance

/-- The unpacker the `switch` of `dispatchBusMessage` calls for kind `i` fails on `data`
(a kind of the `default` branch calls none). -/
def unpackFails (dpt : Dpt) (i : Int) (data : List (Fin 256)) : Prop :=
  if 1000 < i ∧ i < 2000 then dpt.unpack1001 data = none
  else if i = 5001 then dpt.unpack5001 data = none
  else if i = 9001 then dpt.unpack9001 data = none
  else if i = 9004 then dpt.unpack9004 data = none
  else if i = 9005 then dpt.unpack9005 data = none
  else False

/-- Follows the words of the claim on `authenticateStaticSecretKey`: `val` without its
leading `pre`, when `val` starts with `pre`. -/
def stripLeading : GoString → GoString → Option GoString
  | [], v => some v
  | _ :: _, [] => none
  | p :: ps, b :: bs => if p = b then stripLeading ps bs else none

/-- Follows the words of the claim on `authenticateStaticSecretKey`: `val` after removing
at most one leading occurrence of the scheme followed by a single space. -/
def stripSchemeOnce (val scheme : GoString) : GoString :=
  (stripLeading (scheme ++ [⟨0x20, by decide⟩]) val).getD val

/-- White space of one byte: tab, line feed, vertical tab, form feed, carriage return,
space. -/
def whiteSpace1 (a : Fin 256) : Bool :=
  a.val = 0x09 ∨ a.val = 0x0A ∨ a.val = 0x0B ∨ a.val = 0x0C ∨ a.val = 0x0D ∨ a.val = 0x20

/-- White space of two bytes in UTF-8: U+0085 (`C2 85`) and U+00A0 (`C2 A0`). -/
def whiteSpace2 (a b : Fin 256) : Bool :=
  a.val = 0xC2 ∧ (b.val = 0x85 ∨ b.val = 0xA0)

/-- White space of three bytes in UTF-8: U+1680 (`E1 9A 80`), U+2000 to U+200A
(`E2 80 80` to `E2 80 8A`), U+2028 and U+2029 (`E2 80 A8`, `E2 80 A9`), U+202F
(`E2 80 AF`), U+205F (`E2 81 9F`) and U+3000 (`E3 80 80`). -/
def whiteSpace3 (a b c : Fin 256) : Bool :=
  (a.val = 0xE1 ∧ b.val = 0x9A ∧ c.val = 0x80) ∨
  (a.val = 0xE2 ∧ b.val = 0x80 ∧
    ((0x80 ≤ c.val ∧ c.val ≤ 0x8A) ∨ c.val = 0xA8 ∨ c.val = 0xA9 ∨ c.val = 0xAF)) ∨
  (a.val = 0xE2 ∧ b.val = 0x81 ∧ c.val = 0x9F) ∨
  (a.val = 0xE3 ∧ b.val = 0x80 ∧ c.val = 0x80)

/-- Drop the white space characters at the front of a string. -/
def dropLeadingWhiteSpace : GoString → GoString
  | [] => []
  | a :: t =>
    if whiteSpace1 a then dropLeadingWhiteSpace t
    else
      match t with
      | [] => a :: t
      | b :: t1 =>
        if whiteSpace2 a b then dropLeadingWhiteSpace t1
        else
          match t1 with
          | [] => a :: t
          | c :: t2 =>
            if whiteSpace3 a b c then dropLeadingWhiteSpace t2 else a :: t

/-- Drop the white space characters at the back of a string that is given last byte
first. -/
def dropTrailingWhiteSpaceRev : GoString → GoString
  | [] => []
  | c :: t =>
    if whiteSpace1 c then dropTrailingWhiteSpaceRev t
    else
      match t with
      | [] => c :: t
      | b :: t1 =>
        if whiteSpace2 b c then dropTrailingWhiteSpaceRev t1
        else
          match t1 with
          | [] => c :: t
          | a :: t2 =>
            if whiteSpace3 a b c then dropTrailingWhiteSpaceRev t2 else c :: t

/-- Drop the white space characters at the back of a string. -/
def dropTrailingWhiteSpace (s : GoString) : GoString :=
  (dropTrailingWhiteSpaceRev s.reverse).reverse

/-- Follows the words of the claim on `authenticateStaticSecretKey`: trimming leading and
trailing white space, that is dropping the white space characters at the front of the
string and then those at its back. White space is the Unicode property `White_Space`,
each character in its UTF-8 encoding. -/
def trimWhiteSpace (s : GoString) : GoString :=
  dropTrailingWhiteSpace (dropLeadingWhiteSpace s)

/-- The number of bytes of the white space character at the front of a string, `0` when
the string does not start with one. -/
def leadLen : GoString → Nat
  | [] => 0
  | a :: t =>
    if whiteSpace1 a then 1
    else
      match t with
      | [] => 0
      | b :: t1 =>
        if whiteSpace2 a b then 2
        else
          match t1 with
          | [] => 0
          | c :: _ => if whiteSpace3 a b c then 3 else 0

/-- A lead byte of a two-byte sequence followed by a continuation byte. -/
def seq2 (a b : Nat) : Prop := 0xC2 ≤ a ∧ a < 0xE0 ∧ 0x80 ≤ b ∧ b ≤ 0xBF

/-- A well-formed three-byte sequence. -/
def seq3 (a b c : Nat) : Prop :=
  0xE0 ≤ a ∧ a < 0xF0 ∧ 0x80 ≤ b ∧ b ≤ 0xBF ∧ (a = 0xE0 → 0xA0 ≤ b) ∧ (a = 0xED → b ≤ 0x9F)
    ∧ 0x80 ≤ c ∧ c ≤ 0xBF

/-- A well-formed four-byte sequence. -/
def seq4 (a b c d : Nat) : Prop :=
  0xF0 ≤ a ∧ a ≤ 0xF4 ∧ 0x80 ≤ b ∧ b ≤ 0xBF ∧ (a = 0xF0 → 0x90 ≤ b) ∧ (a = 0xF4 → b ≤ 0x8F)
    ∧ 0x80 ≤ c ∧ c ≤ 0xBF ∧ 0x80 ≤ d ∧ d ≤ 0xBF

/-- The number of bytes at the end of a string, given last byte first, that
`DecodeLastRuneInString` hands to `DecodeRuneInString`: one for an ASCII byte, else up to
the nearest rune start among the three bytes before the last, else one byte more (or the
whole string). -/
def backLen : GoString → Nat
  | [] => 0
  | b :: t =>
    if b.val < 0x80 then 1
    else
      match t with
      | [] => 1
      | c :: t1 =>
        if RuneStart c then 2
        else
          match t1 with
          | [] => 2
          | d :: t2 =>
            if RuneStart d then 3
            else
              match t2 with
              | [] => 3
              | e :: t3 =>
                if RuneStart e then 4
                else
                  match t3 with
                  | [] => 4
                  | _ :: _ => 5

/-- The number of bytes of the white space character at the back of a string that is
given last byte first, `0` when the string does not end with one. -/
def trailLen : GoString → Nat
  | [] => 0
  | c :: t =>
    if whiteSpace1 c then 1
    else
      match t with
      | [] => 0
      | b :: t1 =>
        if whiteSpace2 b c then 2
        else
          match t1 with
          | [] => 0
          | a :: _ => if whiteSpace3 a b c then 3 else 0

/-- A stand-in for the unpackers of package `dpt` in worked examples. The boolean
unpacker takes a payload of one byte and reads its lowest bit; the percent unpacker takes
two bytes and scales the second from `0..255` to `0..100`; the 16-bit float unpackers
take three bytes and read sign, exponent and mantissa from the last two. Any other
payload length is an error. -/
def exampleDpt : Dpt where
  unpack1001 := fun data =>
    match data with
    | [b] => some (b.val % 2 = 1)
    | _ => none
  unpack5001 := fun data =>
    match data with
    | [_, b] => some ((b.val : ℚ) * 100 / 255)
    | _ => none
  unpack9001 := fun data =>
    match data with
    | [_, hi, lo] =>
      some ((((hi.val % 8 * 256 + lo.val : Nat) : ℚ) - (if 128 ≤ hi.val then 2048 else 0))
        * 2 ^ (hi.val / 8 % 16) / 100)
    | _ => none
  unpack9004 := fun data =>
    match data with
    | [_, hi, lo] =>
      some ((((hi.val % 8 * 256 + lo.val : Nat) : ℚ) - (if 128 ≤ hi.val then 2048 else 0))
        * 2 ^ (hi.val / 8 % 16) / 100)
    | _ => none
  unpack9005 := fun data =>
    match data with
    | [_, hi, lo] =>
      some ((((hi.val % 8 * 256 + lo.val : Nat) : ℚ) - (if 128 ≤ hi.val then 2048 else 0))
        * 2 ^ (hi.val / 8 % 16) / 100)
    | _ => none

/-- A mapping of the boolean kind 1001 on group address `1/2/3`. -/
def lampMapping : Mapping :=
  ⟨str "lamp_on", 1001, str "lamp", [], str "1/2/3", 1, []⟩

/-- A mapping of the temperature kind 9001 on group address `2/1/0`. -/
def tempMapping : Mapping :=
  ⟨str "room_temp", 9001, str "temperature", [⟨str "room", str "hall"⟩], str "2/1/0", 2,
    [(str "room", str "hall")]⟩

/-- A mapping of kind 1000 on group address `1/0/0`. -/
def kind1000Mapping : Mapping :=
  ⟨str "door_open", 1000, str "door", [], str "1/0/0", 3, []⟩

/-- A mapping of kind 4242 on group address `4/2/42`. -/
def kind4242Mapping : Mapping :=
  ⟨str "odd", 4242, str "", [], str "4/2/42", 4, []⟩

/-- A second mapping on group address `1/2/3`, of kind 9001 and with a gauge of its own. -/
def lampDuplicate : Mapping :=
  ⟨str "lamp_again", 9001, str "", [], str "1/2/3", 5, [(str "n", str "2")]⟩

/-- Validators of package `knxrpc` that accept every sub-config. -/
def acceptAll : Knxrpc Unit := ⟨fun _ => none, fun _ => none⟩

/-- A server config with host, port and path set. -/
def exampleServer : ServerConfig :=
  ⟨str "127.0.0.1", 8080, str "/metrics", false, ⟨false, str "", str "", str ""⟩⟩

/-- A config that passes validation and declares the single mapping of kind 4242. -/
def config4242 : Config Unit := ⟨(), exampleServer, [kind4242Mapping]⟩

/-- A config that passes validation, with a boolean and a temperature mapping. -/
def exampleConfig : Config Unit := ⟨(), exampleServer, [lampMapping, tempMapping]⟩

/-- A config without mappings. -/
def emptyConfig : Config Unit := ⟨(), exampleServer, []⟩

/-- Setup calls that all succeed: every gauge gets the handle `7`, attribute sets keep
the key/value pairs as listed. -/
def exampleSetupEnv : SetupEnv :=
  ⟨none, none, fun _ _ => .ok 7, fun kvs => kvs, fun path => .ok path⟩

/-- A run in which the shared context is cancelled while the first startup read request
is in flight: that `Publish` call fails with an error that unwraps to `context.Canceled`,
the subscription stream ends with `context.Canceled`, and the web server, shut down by
the cancellation, returns `http.ErrServerClosed`. -/
def cancelledDuringRefresh : StartEnv :=
  ⟨exampleSetupEnv,
   fun _ => .ok ⟨[], some .contextCanceled⟩,
   some .errServerClosed,
   fun _ => some (.wrap (str "canceled: context canceled") .contextCanceled),
   [.refresh, .subscriber, .webserver, .info]⟩

/-! ## The dispatcher -/

theorem findMapping_eq_none (mappings : List Mapping) (addr : GoString)
    (h : ∀ m ∈ mappings, m.KNXGroupAddress ≠ addr) : findMapping mappings addr = none := by
  induction mappings with
  | nil => rfl
  | cons m rest ih =>
    have hm : addr ≠ m.KNXGroupAddress := fun e => h m (List.mem_cons_self _ _) e.symm
    have hrest : ∀ x ∈ rest, x.KNXGroupAddress ≠ addr :=
      fun x hx => h x (List.mem_cons_of_mem _ hx)
    simp [findMapping, hm, ih hrest]

theorem findMapping_first (front rest : List Mapping) (m : Mapping) (addr : GoString)
    (hfront : ∀ x ∈ front, x.KNXGroupAddress ≠ addr) (hm : m.KNXGroupAddress = addr) :
    findMapping (front ++ m :: rest) addr = some m := by
  induction front with
  | nil => simp [findMapping, hm]
  | cons x xs ih =>
    have hx : addr ≠ x.KNXGroupAddress := fun e => hfront x (List.mem_cons_self _ _) e.symm
    have hxs : ∀ y ∈ xs, y.KNXGroupAddress ≠ addr :=
      fun y hy => hfront y (List.mem_cons_of_mem _ hy)
    simp [findMapping, hx, ih hxs]

theorem findMapping_some_address (mappings : List Mapping) (addr : GoString) (m : Mapping)
    (h : findMapping mappings addr = some m) : m ∈ mappings ∧ m.KNXGroupAddress = addr := by
  induction mappings with
  | nil => simp [findMapping] at h
  | cons x rest ih =>
    unfold findMapping at h
    by_cases hx : addr = x.KNXGroupAddress
    · rw [if_pos hx] at h
      cases h
      exact ⟨List.mem_cons_self _ _, hx.symm⟩
    · rw [if_neg hx] at h
      exact ⟨List.mem_cons_of_mem _ (ih h).1, (ih h).2⟩

theorem decodeSwitch_eq_none (dpt : Dpt) (i : Int) (data : List (Fin 256))
    (h : ¬ recognizedKind i) : decodeSwitch dpt i data = none := by
  unfold recognizedKind at h
  simp only [not_or] at h
  obtain ⟨h1, h2, h3, h4, h5⟩ := h
  simp [decodeSwitch, h1, h2, h3, h4, h5]

theorem decodeSwitch_unpack_fails (dpt : Dpt) (i : Int) (data : List (Fin 256))
    (h : unpackFails dpt i data) : decodeSwitch dpt i data = some 0 := by
  unfold unpackFails at h
  unfold decodeSwitch
  split_ifs at h ⊢ <;> simp [h]

theorem decodeSwitch_isSome_iff (dpt : Dpt) (i : Int) (data : List (Fin 256)) :
    (decodeSwitch dpt i data).isSome ↔ recognizedKind i := by
  constructor
  · intro h
    by_contra hn
    rw [decodeSwitch_eq_none dpt i data hn] at h
    simp at h
  · intro h
    unfold recognizedKind at h
    unfold decodeSwitch
    split_ifs <;> first
      | (split <;> (try split) <;> rfl)
      | omega

theorem decodeSwitch_bool (dpt : Dpt) (k : Int) (data : List (Fin 256)) (b : Bool)
    (hk : 1000 < k ∧ k < 2000) (hb : dpt.unpack1001 data = some b) :
    decodeSwitch dpt k data = some (if b then 1 else 0) := by
  unfold decodeSwitch
  rw [if_pos hk, hb]
  cases b <;> rfl

/-- An unpack failure in a decoding branch leaves `f` at `0.0`, and the code goes on to
record it: the outcome is one gauge write of the value `0` on the mapping's gauge. -/
theorem dispatchBusMessage_unpack_failure (dpt : Dpt) (mappings : List Mapping)
    (res : SubscribeResponse) (m : Mapping)
    (hm : findMapping mappings res.GroupAddress = some m)
    (hfail : unpackFails dpt m.MetricType res.Data) :
    (dispatchBusMessage dpt mappings res).err = none ∧
      (dispatchBusMessage dpt mappings res).writes = [⟨m.gauge, 0, m.attributeSet⟩] := by
  unfold dispatchBusMessage
  rw [hm]
  simp [decodeSwitch_unpack_fails dpt _ _ hfail]

/-- Claim C1, evaluated on the code: an event on the mapped address `2/1/0` (kind 9001)
with an empty payload, which the unpacker rejects, returns `nil` and records the value
`0` on the gauge of the mapping. -/
theorem dispatchBusMessage_records_zero_on_unpack_failure :
    exampleDpt.unpack9001 [] = none ∧
      dispatchBusMessage exampleDpt [lampMapping, tempMapping]
        ⟨str "2/1/0", .EVENT_RESPONSE, []⟩ =
      ⟨none, [⟨2, 0, [(str "room", str "hall")]⟩],
        [.traceReceivedEvent (str "2/1/0") (str "room_temp") [⟨str "room", str "hall"⟩]]⟩ := by
  decide

/-- For a kind strictly between 1000 and 2000 and a payload that unpacks as the boolean
`b`, dispatch records exactly one gauge value, `1` for true and `0` for false. -/
theorem dispatchBusMessage_bool (dpt : Dpt) (mappings : List Mapping)
    (res : SubscribeResponse) (m : Mapping) (b : Bool)
    (hm : findMapping mappings res.GroupAddress = some m)
    (hk : 1000 < m.MetricType ∧ m.MetricType < 2000)
    (hb : dpt.unpack1001 res.Data = some b) :
    (dispatchBusMessage dpt mappings res).err = none ∧
      (dispatchBusMessage dpt mappings res).writes =
        [⟨m.gauge, if b then 1 else 0, m.attributeSet⟩] := by
  unfold dispatchBusMessage
  rw [hm]
  simp [decodeSwitch_bool dpt _ _ b hk hb]

/-- Claim C2, evaluated on the code: an event on the mapped address `1/0/0` of kind 1000
whose payload unpacks as the boolean `true` records no gauge value; the dispatcher logs
"unknown dpt type" and returns `nil`. -/
theorem dispatchBusMessage_kind_1000_not_recorded :
    exampleDpt.unpack1001 [1] = some true ∧
      dispatchBusMessage exampleDpt [kind1000Mapping] ⟨str "1/0/0", .EVENT_RESPONSE, [1]⟩ =
      ⟨none, [],
        [.traceReceivedEvent (str "1/0/0") (str "door_open") [],
         .warnUnknownDptType (str "1/0/0") 1000]⟩ := by
  decide

/-- Claim C3: when the group address of the event is the `KNXGroupAddress` of no mapping
in the table, `dispatchBusMessage` returns `nil` and performs no gauge write. -/
theorem dispatchBusMessage_unknown_address (dpt : Dpt) (mappings : List Mapping)
    (res : SubscribeResponse)
    (h : ∀ m ∈ mappings, m.KNXGroupAddress ≠ res.GroupAddress) :
    (dispatchBusMessage dpt mappings res).err = none ∧
      (dispatchBusMessage dpt mappings res).writes = [] := by
  unfold dispatchBusMessage
  rw [findMapping_eq_none mappings res.GroupAddress h]
  exact ⟨rfl, rfl⟩

theorem dispatchBusMessage_unknown_address_witness :
    (∀ m ∈ [lampMapping, tempMapping],
        m.KNXGroupAddress ≠ (⟨str "9/9/9", .EVENT_RESPONSE, [1]⟩ : SubscribeResponse).GroupAddress) ∧
      (dispatchBusMessage exampleDpt [lampMapping, tempMapping]
          ⟨str "9/9/9", .EVENT_RESPONSE, [1]⟩).err = none ∧
      (dispatchBusMessage exampleDpt [lampMapping, tempMapping]
          ⟨str "9/9/9", .EVENT_RESPONSE, [1]⟩).writes = [] :=
  ⟨by decide,
   dispatchBusMessage_unknown_address exampleDpt [lampMapping, tempMapping]
     ⟨str "9/9/9", .EVENT_RESPONSE, [1]⟩ (by decide)⟩

/-- Claim C4: when the event resolves to a mapping whose kind is outside the boolean case
of the `switch` (strictly between 1000 and 2000, so every kind outside 1000..1999 is
covered) and is none of 5001, 9001, 9004, 9005, then for every payload
`dispatchBusMessage` returns `nil` and performs no gauge write. -/
theorem dispatchBusMessage_unrecognized_kind (dpt : Dpt) (mappings : List Mapping)
    (res : SubscribeResponse) (m : Mapping)
    (hm : findMapping mappings res.GroupAddress = some m)
    (hrange : ¬ (1000 < m.MetricType ∧ m.MetricType < 2000))
    (h5001 : m.MetricType ≠ 5001) (h9001 : m.MetricType ≠ 9001)
    (h9004 : m.MetricType ≠ 9004) (h9005 : m.MetricType ≠ 9005) :
    (dispatchBusMessage dpt mappings res).err = none ∧
      (dispatchBusMessage dpt mappings res).writes = [] := by
  have hn : ¬ recognizedKind m.MetricType := by
    unfold recognizedKind
    simp only [not_or]
    exact ⟨hrange, h5001, h9001, h9004, h9005⟩
  unfold dispatchBusMessage
  rw [hm]
  simp [decodeSwitch_eq_none dpt _ res.Data hn]

theorem dispatchBusMessage_unrecognized_kind_witness :
    findMapping [lampMapping, kind4242Mapping] (str "4/2/42") = some kind4242Mapping ∧
      (dispatchBusMessage exampleDpt [lampMapping, kind4242Mapping]
          ⟨str "4/2/42", .EVENT_WRITE, [1]⟩).err = none ∧
      (dispatchBusMessage exampleDpt [lampMapping, kind4242Mapping]
          ⟨str "4/2/42", .EVENT_WRITE, [1]⟩).writes = [] :=
  ⟨by decide,
   dispatchBusMessage_unrecognized_kind exampleDpt [lampMapping, kind4242Mapping]
     ⟨str "4/2/42", .EVENT_WRITE, [1]⟩ kind4242Mapping (by decide) (by decide) (by decide)
     (by decide) (by decide) (by decide)⟩

theorem dispatchBusMessage_err (dpt : Dpt) (mappings : List Mapping)
    (res : SubscribeResponse) : (dispatchBusMessage dpt mappings res).err = none := by
  unfold dispatchBusMessage
  cases findMapping mappings res.GroupAddress with
  | none => rfl
  | some m =>
    cases hd : decodeSwitch dpt m.MetricType res.Data with
    | none => simp [hd]
    | some f => simp [hd]

/-- The receiver loop hands every RESPONSE and WRITE event to `dispatchBusMessage`: on
such an event alone, the loop does what the dispatcher does. -/
theorem receiveLoop_dispatches (dpt : Dpt) (mappings : List Mapping)
    (res : SubscribeResponse)
    (h : res.Event = Event.EVENT_RESPONSE ∨ res.Event = Event.EVENT_WRITE) :
    receiveLoop dpt mappings [res] = dispatchBusMessage dpt mappings res := by
  have hn : ¬ (res.Event ≠ Event.EVENT_RESPONSE ∧ res.Event ≠ Event.EVENT_WRITE) := by
    rintro ⟨h1, h2⟩
    rcases h with h | h
    · exact h1 h
    · exact h2 h
  have he := dispatchBusMessage_err dpt mappings res
  rw [receiveLoop, if_neg hn]
  simp only [he, receiveLoop, List.append_nil]
  rw [← he]

theorem receiveLoop_skip (dpt : Dpt) (mappings : List Mapping)
    (res : SubscribeResponse) (rest : List SubscribeResponse)
    (h : res.Event ≠ Event.EVENT_RESPONSE ∧ res.Event ≠ Event.EVENT_WRITE) :
    receiveLoop dpt mappings (res :: rest) = receiveLoop dpt mappings rest := by
  rw [receiveLoop, if_pos h]

/-- Claim C5: an event whose kind is neither RESPONSE nor WRITE is a no-op for the
dispatch, whatever its address and payload. The receiver loop of `startKNXSubscriber`,
the only caller of `dispatchBusMessage`, skips it: wherever the event stands in the
stream, the run does what it does on the stream without the event; on the event alone
the loop performs no gauge write, logs nothing and ends without error; and a
subscription that delivers only this event returns `nil` without a gauge write. -/
theorem receiveLoop_skips_other_kinds (dpt : Dpt) (mappings : List Mapping)
    (front rest : List SubscribeResponse) (res : SubscribeResponse)
    (h : res.Event ≠ Event.EVENT_RESPONSE ∧ res.Event ≠ Event.EVENT_WRITE) :
    receiveLoop dpt mappings (front ++ res :: rest) = receiveLoop dpt mappings (front ++ rest) ∧
      receiveLoop dpt mappings [res] = ⟨none, [], []⟩ ∧
      startKNXSubscriber dpt mappings (fun _ => .ok ⟨[res], none⟩) = ⟨none, [], []⟩ := by
  have hone : receiveLoop dpt mappings [res] = ⟨none, [], []⟩ := by
    rw [receiveLoop_skip dpt mappings res [] h, receiveLoop]
  refine ⟨?_, hone, ?_⟩
  · induction front with
    | nil => exact receiveLoop_skip dpt mappings res rest h
    | cons x xs ih =>
      simp only [List.cons_append]
      rw [receiveLoop, receiveLoop, ih]
  · simp only [startKNXSubscriber, hone]

theorem receiveLoop_skips_other_kinds_witness :
    (((⟨str "1/2/3", .EVENT_READ, [1]⟩ : SubscribeResponse).Event ≠ Event.EVENT_RESPONSE ∧
      (⟨str "1/2/3", .EVENT_READ, [1]⟩ : SubscribeResponse).Event ≠ Event.EVENT_WRITE) ∧
      findMapping [lampMapping] (str "1/2/3") = some lampMapping ∧
      exampleDpt.unpack1001 [1] = some true ∧
      (receiveLoop exampleDpt [lampMapping] [⟨str "1/2/3", .EVENT_WRITE, [1]⟩]).writes =
        [⟨1, 1, []⟩]) ∧
    (receiveLoop exampleDpt [lampMapping]
        ([⟨str "1/2/3", .EVENT_WRITE, [0]⟩] ++ ⟨str "1/2/3", .EVENT_READ, [1]⟩ ::
          [⟨str "1/2/3", .EVENT_RESPONSE, [0]⟩]) =
      receiveLoop exampleDpt [lampMapping]
        ([⟨str "1/2/3", .EVENT_WRITE, [0]⟩] ++ [⟨str "1/2/3", .EVENT_RESPONSE, [0]⟩]) ∧
     receiveLoop exampleDpt [lampMapping] [⟨str "1/2/3", .EVENT_READ, [1]⟩] =
      ⟨none, [], []⟩ ∧
     startKNXSubscriber exampleDpt [lampMapping]
        (fun _ => .ok ⟨[⟨str "1/2/3", .EVENT_READ, [1]⟩], none⟩) = ⟨none, [], []⟩) :=
  ⟨by decide,
   receiveLoop_skips_other_kinds exampleDpt [lampMapping] [⟨str "1/2/3", .EVENT_WRITE, [0]⟩]
     [⟨str "1/2/3", .EVENT_RESPONSE, [0]⟩] ⟨str "1/2/3", .EVENT_READ, [1]⟩ (by decide)⟩

theorem dispatchBusMessage_of_findMapping (dpt : Dpt) (mappings : List Mapping)
    (res : SubscribeResponse) (m : Mapping)
    (hm : findMapping mappings res.GroupAddress = some m) :
    dispatchBusMessage dpt mappings res =
      match decodeSwitch dpt m.MetricType res.Data with
      | none =>
        ⟨none, [],
          [.traceReceivedEvent res.GroupAddress m.MetricName m.MetricAttributes,
           .warnUnknownDptType res.GroupAddress m.MetricType]⟩
      | some f =>
        ⟨none, [⟨m.gauge, f, m.attributeSet⟩],
          [.traceReceivedEvent res.GroupAddress m.MetricName m.MetricAttributes]⟩ := by
  unfold dispatchBusMessage
  rw [hm]

theorem decodeSwitch_value (dpt : Dpt) (k : Int) (data : List (Fin 256)) (v : ℚ) :
    (k = 5001 → dpt.unpack5001 data = some v → decodeSwitch dpt k data = some v) ∧
      (k = 9001 → dpt.unpack9001 data = some v → decodeSwitch dpt k data = some v) ∧
      (k = 9004 → dpt.unpack9004 data = some v → decodeSwitch dpt k data = some v) ∧
      (k = 9005 → dpt.unpack9005 data = some v → decodeSwitch dpt k data = some v) := by
  refine ⟨?_, ?_, ?_, ?_⟩ <;>
  · intro hk hv
    subst hk
    simp [decodeSwitch, hv]

/-- Claim C8: when `m` is the first mapping in list order whose `KNXGroupAddress` is the
address of the event, whatever mappings follow it (duplicates of the address included),
`dispatchBusMessage` uses `m`: it returns `nil`; it decodes the payload by the kind of
`m` (a boolean for a kind strictly between 1000 and 2000, the unpacker of 5001, 9001,
9004 or 9005 for these kinds, nothing for any other kind) and records the value on the
gauge of `m` with the attribute set of `m`; the whole outcome is what the `switch` yields
for the kind of `m`, and what the dispatcher does on `m` alone; every gauge write goes to
the gauge of `m`, and none to the gauge of a later mapping that has another gauge. -/
theorem dispatchBusMessage_first_match (dpt : Dpt) (front rest : List Mapping) (m : Mapping)
    (res : SubscribeResponse)
    (hfront : ∀ x ∈ front, x.KNXGroupAddress ≠ res.GroupAddress)
    (hm : m.KNXGroupAddress = res.GroupAddress) :
    (dispatchBusMessage dpt (front ++ m :: rest) res =
        match decodeSwitch dpt m.MetricType res.Data with
        | none =>
          ⟨none, [],
            [.traceReceivedEvent res.GroupAddress m.MetricName m.MetricAttributes,
             .warnUnknownDptType res.GroupAddress m.MetricType]⟩
        | some f =>
          ⟨none, [⟨m.gauge, f, m.attributeSet⟩],
            [.traceReceivedEvent res.GroupAddress m.MetricName m.MetricAttributes]⟩) ∧
      (∀ b, 1000 < m.MetricType ∧ m.MetricType < 2000 → dpt.unpack1001 res.Data = some b →
        (dispatchBusMessage dpt (front ++ m :: rest) res).writes =
          [⟨m.gauge, if b then 1 else 0, m.attributeSet⟩]) ∧
      (∀ v, m.MetricType = 5001 → dpt.unpack5001 res.Data = some v →
        (dispatchBusMessage dpt (front ++ m :: rest) res).writes =
          [⟨m.gauge, v, m.attributeSet⟩]) ∧
      (∀ v, m.MetricType = 9001 → dpt.unpack9001 res.Data = some v →
        (dispatchBusMessage dpt (front ++ m :: rest) res).writes =
          [⟨m.gauge, v, m.attributeSet⟩]) ∧
      (∀ v, m.MetricType = 9004 → dpt.unpack9004 res.Data = some v →
        (dispatchBusMessage dpt (front ++ m :: rest) res).writes =
          [⟨m.gauge, v, m.attributeSet⟩]) ∧
      (∀ v, m.MetricType = 9005 → dpt.unpack9005 res.Data = some v →
        (dispatchBusMessage dpt (front ++ m :: rest) res).writes =
          [⟨m.gauge, v, m.attributeSet⟩]) ∧
      (¬ recognizedKind m.MetricType →
        (dispatchBusMessage dpt (front ++ m :: rest) res).writes = []) ∧
      (dispatchBusMessage dpt (front ++ m :: rest) res).err = none ∧
      dispatchBusMessage dpt (front ++ m :: rest) res = dispatchBusMessage dpt [m] res ∧
      (∀ w ∈ (dispatchBusMessage dpt (front ++ m :: rest) res).writes,
        w.gauge = m.gauge ∧ w.attributeSet = m.attributeSet) ∧
      (∀ d ∈ rest, d.gauge ≠ m.gauge →
        ∀ w ∈ (dispatchBusMessage dpt (front ++ m :: rest) res).writes,
          w.gauge ≠ d.gauge) := by
  have h1 : findMapping (front ++ m :: rest) res.GroupAddress = some m :=
    findMapping_first front rest m res.GroupAddress hfront hm
  have h2 : findMapping [m] res.GroupAddress = some m :=
    findMapping_first [] [] m res.GroupAddress (by simp) hm
  have heq := dispatchBusMessage_of_findMapping dpt (front ++ m :: rest) res m h1
  have heq1 := dispatchBusMessage_of_findMapping dpt [m] res m h2
  have hw : ∀ w ∈ (dispatchBusMessage dpt (front ++ m :: rest) res).writes,
      w.gauge = m.gauge ∧ w.attributeSet = m.attributeSet := by
    intro w hw
    rw [heq] at hw
    cases hd : decodeSwitch dpt m.MetricType res.Data with
    | none => simp [hd] at hw
    | some f =>
      simp [hd] at hw
      subst hw
      exact ⟨rfl, rfl⟩
  have hval := decodeSwitch_value dpt m.MetricType res.Data
  refine ⟨heq, ?_, ?_, ?_, ?_, ?_, ?_, dispatchBusMessage_err _ _ _, ?_, hw, ?_⟩
  · intro b hk hb
    rw [heq, decodeSwitch_bool dpt _ _ b hk hb]
  · intro v hk hv
    rw [heq, (hval v).1 hk hv]
  · intro v hk hv
    rw [heq, (hval v).2.1 hk hv]
  · intro v hk hv
    rw [heq, (hval v).2.2.1 hk hv]
  · intro v hk hv
    rw [heq, (hval v).2.2.2 hk hv]
  · intro hn
    rw [heq, decodeSwitch_eq_none dpt _ _ hn]
  · rw [heq, heq1]
  · intro d _ hne w hmem e
    exact hne (e.symm.trans (hw w hmem).1)

theorem dispatchBusMessage_first_match_witness :
    ((∀ x ∈ [tempMapping],
        x.KNXGroupAddress ≠ (⟨str "1/2/3", .EVENT_WRITE, [1]⟩ : SubscribeResponse).GroupAddress) ∧
      lampMapping.KNXGroupAddress =
        (⟨str "1/2/3", .EVENT_WRITE, [1]⟩ : SubscribeResponse).GroupAddress ∧
      lampDuplicate.KNXGroupAddress = lampMapping.KNXGroupAddress ∧
      lampDuplicate.MetricType ≠ lampMapping.MetricType ∧
      lampDuplicate.gauge ≠ lampMapping.gauge) ∧
    (dispatchBusMessage exampleDpt ([tempMapping] ++ lampMapping :: [lampDuplicate])
        ⟨str "1/2/3", .EVENT_WRITE, [1]⟩).writes = [⟨1, 1, []⟩] :=
  ⟨by decide,
   (dispatchBusMessage_first_match exampleDpt [tempMapping] [lampDuplicate] lampMapping
     ⟨str "1/2/3", .EVENT_WRITE, [1]⟩ (by decide) (by decide)).2.1 true (by decide)
     (by decide)⟩

/-! ## Configuration validation -/

theorem Mapping.Validate_eq_none_iff (m : Mapping) :
    m.Validate = none ↔ m.MetricName ≠ [] ∧ m.MetricType ≠ 0 ∧ m.KNXGroupAddress ≠ [] := by
  unfold Mapping.Validate
  simp only [List.length_eq_zero]
  split_ifs with h1 h2 h3 <;> simp [*]

theorem Mapping.Validate_isSome_iff (m : Mapping) :
    m.Validate.isSome ↔ (m.MetricName = [] ∨ m.MetricType = 0 ∨ m.KNXGroupAddress = []) := by
  have h := Mapping.Validate_eq_none_iff m
  cases hv : m.Validate with
  | none =>
    rw [hv] at h
    have h3 := h.mp rfl
    simp only [Option.isSome_none, Bool.false_eq_true, false_iff, not_or]
    exact h3
  | some err =>
    rw [hv] at h
    simp only [Option.isSome_some, true_iff]
    by_contra hcon
    simp only [not_or] at hcon
    exact absurd (h.mpr hcon) (by simp)

theorem validateMappings_isSome_iff (i : Nat) (mappings : List Mapping) :
    (validateMappings i mappings).isSome ↔
      ∃ m ∈ mappings, m.MetricName = [] ∨ m.MetricType = 0 ∨ m.KNXGroupAddress = [] := by
  induction mappings generalizing i with
  | nil => simp [validateMappings]
  | cons m rest ih =>
    unfold validateMappings
    cases hv : m.Validate with
    | some err =>
      have hm := (Mapping.Validate_isSome_iff m).mp (by simp [hv])
      simp only [Option.isSome_some, true_iff]
      exact ⟨m, List.mem_cons_self _ _, hm⟩
    | none =>
      have hm := (Mapping.Validate_eq_none_iff m).mp hv
      simp only [ih (i + 1), List.mem_cons, exists_eq_or_imp]
      constructor
      · intro h
        exact Or.inr h
      · rintro (h | h)
        · rcases h with h | h | h
          · exact absurd h hm.1
          · exact absurd h hm.2.1
          · exact absurd h hm.2.2
        · exact h

theorem New_of_Validate_isSome {C : Type} (k : Knxrpc C) (c : Config C)
    (logger : Option Logger) (h : (c.Validate k).isSome) :
    (New k (some c) logger).1 = none ∧ (New k (some c) logger).2.isSome := by
  cases hv : c.Validate k with
  | none => simp [hv] at h
  | some err => simp [New, hv]

/-- Claim C6: for a config whose KNXRPC and Server sub-configs validate, `Config.Validate`
returns an error exactly when the mappings list is empty or some mapping has an empty
`MetricName`, a `MetricType` of 0 or an empty `KNXGroupAddress`; and whenever it returns
an error, `New` returns an error and no server, whatever logger it is given. -/
theorem Config_Validate_error_iff {C : Type} (k : Knxrpc C) (c : Config C)
    (hclient : k.clientValidate c.KNXRPC = none) (hserver : c.Server.Validate k = none) :
    ((c.Validate k).isSome ↔
        (c.Mappings = [] ∨
          ∃ m ∈ c.Mappings, m.MetricName = [] ∨ m.MetricType = 0 ∨ m.KNXGroupAddress = [])) ∧
      ((c.Validate k).isSome →
        ∀ logger, (New k (some c) logger).1 = none ∧ (New k (some c) logger).2.isSome) := by
  refine ⟨?_, fun h logger => New_of_Validate_isSome k c logger h⟩
  unfold Config.Validate
  rw [hclient, hserver]
  simp only [List.length_eq_zero]
  by_cases he : c.Mappings = []
  · simp [he]
  · simp only [if_neg he, he, false_or]
    exact validateMappings_isSome_iff 0 c.Mappings

theorem Config_Validate_error_iff_witness :
    (acceptAll.clientValidate emptyConfig.KNXRPC = none ∧
      emptyConfig.Server.Validate acceptAll = none) ∧
    (((emptyConfig.Validate acceptAll).isSome ↔
        (emptyConfig.Mappings = [] ∨
          ∃ m ∈ emptyConfig.Mappings,
            m.MetricName = [] ∨ m.MetricType = 0 ∨ m.KNXGroupAddress = [])) ∧
      ((emptyConfig.Validate acceptAll).isSome →
        ∀ logger, (New acceptAll (some emptyConfig) logger).1 = none ∧
          (New acceptAll (some emptyConfig) logger).2.isSome)) :=
  ⟨by decide, Config_Validate_error_iff acceptAll emptyConfig (by decide) (by decide)⟩

/-- Claim C7, as stated, fails: the config whose single mapping has kind 4242 is accepted
by `Config.Validate`, and an event for that mapping takes the "unknown dpt type" branch of
`dispatchBusMessage`. -/
theorem Config_Validate_accepts_unrecognized_kind :
    config4242.Validate acceptAll = none ∧
      config4242.Mappings = [kind4242Mapping] ∧
      ¬ recognizedKind kind4242Mapping.MetricType ∧
      dispatchBusMessage exampleDpt config4242.Mappings ⟨str "4/2/42", .EVENT_WRITE, [1]⟩ =
        ⟨none, [],
          [.traceReceivedEvent (str "4/2/42") (str "odd") [],
           .warnUnknownDptType (str "4/2/42") 4242]⟩ := by
  decide

/-- Claim C7, amended: every mapping of a config accepted by `Config.Validate` has a
non-empty `MetricName`, a `MetricType` other than 0 and a non-empty `KNXGroupAddress`. -/
theorem Config_Validate_accepted_mappings {C : Type} (k : Knxrpc C) (c : Config C)
    (h : c.Validate k = none) :
    ∀ m ∈ c.Mappings, m.MetricName ≠ [] ∧ m.MetricType ≠ 0 ∧ m.KNXGroupAddress ≠ [] := by
  intro m hm
  unfold Config.Validate at h
  cases hc : k.clientValidate c.KNXRPC with
  | some err => simp [hc] at h
  | none =>
    cases hs : c.Server.Validate k with
    | some err => simp [hc, hs] at h
    | none =>
      simp only [hc, hs, List.length_eq_zero] at h
      by_cases he : c.Mappings = []
      · simp [he] at h
      · rw [if_neg he] at h
        have hno : ¬ (validateMappings 0 c.Mappings).isSome := by simp [h]
        rw [validateMappings_isSome_iff] at hno
        by_contra hcon
        apply hno
        refine ⟨m, hm, ?_⟩
        by_contra hall
        simp only [not_or] at hall
        exact hcon hall

theorem Config_Validate_accepted_mappings_witness :
    exampleConfig.Validate acceptAll = none ∧
      ∀ m ∈ exampleConfig.Mappings,
        m.MetricName ≠ [] ∧ m.MetricType ≠ 0 ∧ m.KNXGroupAddress ≠ [] :=
  ⟨by decide, Config_Validate_accepted_mappings acceptAll exampleConfig (by decide)⟩

/-! ## The lifecycle -/

theorem refreshTask_not_canceled (publish : GoString → Option GoError)
    (mappings : List Mapping) (e : GoError) (h : refreshTask publish mappings = some e) :
    errorsIs e .contextCanceled = false := by
  induction mappings with
  | nil => simp [refreshTask] at h
  | cons m rest ih =>
    unfold refreshTask at h
    cases hp : publish m.KNXGroupAddress with
    | none =>
      rw [hp] at h
      exact ih h
    | some err =>
      rw [hp] at h
      cases h
      rfl

theorem groupWait_none_or_canceled (results : List (Option GoError))
    (h : ∀ r ∈ results, ∀ e, r = some e → errorsIs e .contextCanceled = true) :
    ∀ e, groupWait results = some e → errorsIs e .contextCanceled = true := by
  induction results with
  | nil =>
    intro e he
    simp [groupWait] at he
  | cons r rest ih =>
    intro e he
    cases r with
    | none =>
      exact ih (fun r hr => h r (List.mem_cons_of_mem _ hr)) e he
    | some err =>
      simp only [groupWait, Option.some.injEq] at he
      subst he
      exact h (some err) (List.mem_cons_self _ _) err rfl

/-- When setup succeeds and every task that fails returns an error that `errors.Is`
matches with `context.Canceled`, `Start` returns `nil`. -/
theorem Start_swallows_cancellation {C : Type} (dpt : Dpt) (env : StartEnv) (config : Config C)
    (mappings : List Mapping) (hsetup : setup env.setup config = .ok mappings)
    (h : ∀ t ∈ env.order, ∀ e, taskResult dpt env mappings t = some e →
      errorsIs e .contextCanceled = true) :
    Start dpt env config = none := by
  unfold Start
  rw [hsetup]
  have hall : ∀ e, groupWait (env.order.map (taskResult dpt env mappings)) = some e →
      errorsIs e .contextCanceled = true := by
    apply groupWait_none_or_canceled
    intro r hr e he
    obtain ⟨t, ht, rfl⟩ := List.mem_map.mp hr
    exact h t ht e he
  cases hw : groupWait (env.order.map (taskResult dpt env mappings)) with
  | none => simp only [hw]
  | some err => simp [hw, hall err hw]

/-- Claim C9, evaluated on the code: the context is cancelled while the first startup
read request is in flight. The failing `Publish` call and the stream both report an error
that `errors.Is` matches with `context.Canceled`, the web server returns
`http.ErrServerClosed`; the task that asks for the current values turns the `Publish`
error into text, and `Start` returns that error instead of `nil`. -/
theorem Start_surfaces_cancellation_of_refresh :
    cancelledDuringRefresh.publish (str "1/2/3") =
        some (.wrap (str "canceled: context canceled") .contextCanceled) ∧
      errorsIs (.wrap (str "canceled: context canceled") .contextCanceled) .contextCanceled
        = true ∧
      (startKNXSubscriber exampleDpt exampleConfig.Mappings
        cancelledDuringRefresh.subscribe).err = none ∧
      webserverTask cancelledDuringRefresh.echoStart = none ∧
      Start exampleDpt cancelledDuringRefresh exampleConfig =
        some (.text (str "unable to initially read values: canceled: context canceled")) := by
  decide

/-! ## Authentication with the static secret key -/

theorem or_eq_zero_iff (a b : Nat) : a ||| b = 0 ↔ a = 0 ∧ b = 0 := by
  constructor
  · intro h
    have key : ∀ i, a.testBit i = false ∧ b.testBit i = false := by
      intro i
      have hi := congrArg (fun n => Nat.testBit n i) h
      simpa [Nat.testBit_or] using hi
    exact ⟨Nat.eq_of_testBit_eq (by intro i; simp [(key i).1]),
      Nat.eq_of_testBit_eq (by intro i; simp [(key i).2])⟩
  · rintro ⟨rfl, rfl⟩
    simp

theorem foldl_or_xor_eq_zero (l : List (Fin 256 × Fin 256)) (v : Nat) :
    l.foldl (fun v p => v ||| (p.1.val ^^^ p.2.val)) v = 0 ↔ v = 0 ∧ ∀ p ∈ l, p.1 = p.2 := by
  induction l generalizing v with
  | nil => simp
  | cons p rest ih =>
    rw [List.foldl_cons, ih, or_eq_zero_iff, Nat.xor_eq_zero]
    simp only [List.mem_cons, forall_eq_or_imp, Fin.val_inj]
    tauto

theorem foldl_or_xor_lt (l : List (Fin 256 × Fin 256)) (v : Nat) (hv : v < 2 ^ 8) :
    l.foldl (fun v p => v ||| (p.1.val ^^^ p.2.val)) v < 2 ^ 8 := by
  induction l generalizing v with
  | nil => simpa using hv
  | cons p rest ih =>
    rw [List.foldl_cons]
    apply ih
    exact Nat.or_lt_two_pow hv (Nat.xor_lt_two_pow p.1.isLt p.2.isLt)

theorem zip_all_eq_iff (x y : List (Fin 256)) (h : x.length = y.length) :
    (∀ p ∈ x.zip y, p.1 = p.2) ↔ x = y := by
  induction x generalizing y with
  | nil =>
    cases y with
    | nil => simp
    | cons b bs => simp at h
  | cons a as ih =>
    cases y with
    | nil => simp at h
    | cons b bs =>
      have hlen : as.length = bs.length := by simpa using h
      simp only [List.zip_cons_cons, List.mem_cons, forall_eq_or_imp, ih bs hlen,
        List.cons.injEq]

theorem ConstantTimeByteEq_zero (v : Nat) (hv : v < 2 ^ 8) :
    ConstantTimeByteEq v 0 = 1 ↔ v = 0 := by
  unfold ConstantTimeByteEq
  rw [Nat.xor_zero]
  norm_num at hv ⊢
  omega

theorem ConstantTimeCompare_eq_one_iff (x y : List (Fin 256)) :
    ConstantTimeCompare x y = 1 ↔ x = y := by
  unfold ConstantTimeCompare
  by_cases hlen : x.length = y.length
  · simp only [hlen, ne_eq, not_true_eq_false, if_false]
    rw [ConstantTimeByteEq_zero _ (foldl_or_xor_lt _ 0 (by norm_num)), foldl_or_xor_eq_zero]
    simp only [true_and]
    exact zip_all_eq_iff x y hlen
  · simp only [ne_eq, hlen, not_false_eq_true, if_true]
    constructor
    · intro h
      exact absurd h (by decide)
    · intro h
      exact absurd (congrArg List.length h) hlen

theorem stripLeading_eq (pre v : GoString) :
    stripLeading pre v = if HasPrefix v pre then some (v.drop pre.length) else none := by
  induction pre generalizing v with
  | nil => simp [stripLeading, HasPrefix]
  | cons p ps ih =>
    cases v with
    | nil => simp [stripLeading, HasPrefix]
    | cons b bs =>
      unfold stripLeading
      by_cases hpb : p = b
      · subst hpb
        rw [if_pos rfl, ih bs]
        simp [HasPrefix]
      · rw [if_neg hpb]
        have hbp : ¬ b = p := fun e => hpb e.symm
        simp [HasPrefix, hbp]

theorem CutPrefix_eq_stripSchemeOnce (val scheme : GoString) :
    (CutPrefix val (scheme ++ str " ")).1 = stripSchemeOnce val scheme := by
  have hsp : str " " = [⟨0x20, by decide⟩] := by decide
  unfold CutPrefix stripSchemeOnce
  rw [hsp, stripLeading_eq]
  cases HasPrefix val (scheme ++ [⟨0x20, by decide⟩]) <;> simp

theorem rune2_eq (a b : Nat) :
    ((a &&& 0x1F) <<< 6) ||| (b &&& 0x3F) = a % 32 * 64 + b % 64 := by
  have h1 : a &&& 0x1F = a % 32 := Nat.and_pow_two_sub_one_eq_mod a 5
  have h2 : b &&& 0x3F = b % 64 := Nat.and_pow_two_sub_one_eq_mod b 6
  rw [h1, h2, Nat.shiftLeft_eq]
  have h3 := Nat.mul_add_lt_is_or (Nat.mod_lt b (by norm_num : 0 < 2 ^ 6)) (a % 32)
  norm_num at h3 ⊢
  rw [Nat.mul_comm (a % 32) 64, ← h3]

theorem rune3_eq (a b c : Nat) :
    ((a &&& 0x0F) <<< 12) ||| ((b &&& 0x3F) <<< 6) ||| (c &&& 0x3F)
      = a % 16 * 4096 + b % 64 * 64 + c % 64 := by
  have h1 : a &&& 0x0F = a % 16 := Nat.and_pow_two_sub_one_eq_mod a 4
  have h2 : b &&& 0x3F = b % 64 := Nat.and_pow_two_sub_one_eq_mod b 6
  have h3 : c &&& 0x3F = c % 64 := Nat.and_pow_two_sub_one_eq_mod c 6
  rw [h1, h2, h3, Nat.shiftLeft_eq, Nat.shiftLeft_eq]
  have hb : b % 64 * 2 ^ 6 < 2 ^ 12 := by
    have := Nat.mod_lt b (by norm_num : 0 < 64)
    norm_num
    omega
  have e1 := Nat.mul_add_lt_is_or hb (a % 16)
  have e2 := Nat.mul_add_lt_is_or (Nat.mod_lt c (by norm_num : 0 < 2 ^ 6))
    (a % 16 * 64 + b % 64)
  norm_num at e1 e2 ⊢
  have e1' : a % 16 * 4096 ||| b % 64 * 64 = a % 16 * 4096 + b % 64 * 64 := by
    rw [Nat.mul_comm (a % 16) 4096, ← e1]
  rw [e1']
  have e3 : a % 16 * 4096 + b % 64 * 64 = 64 * (a % 16 * 64 + b % 64) := by ring
  rw [e3, ← e2]

theorem rune4_eq (a b c d : Nat) :
    ((a &&& 0x07) <<< 18) ||| ((b &&& 0x3F) <<< 12) ||| ((c &&& 0x3F) <<< 6) ||| (d &&& 0x3F)
      = a % 8 * 262144 + b % 64 * 4096 + c % 64 * 64 + d % 64 := by
  have h1 : a &&& 0x07 = a % 8 := Nat.and_pow_two_sub_one_eq_mod a 3
  have h2 : b &&& 0x3F = b % 64 := Nat.and_pow_two_sub_one_eq_mod b 6
  have h3 : c &&& 0x3F = c % 64 := Nat.and_pow_two_sub_one_eq_mod c 6
  have h4 : d &&& 0x3F = d % 64 := Nat.and_pow_two_sub_one_eq_mod d 6
  rw [h1, h2, h3, h4, Nat.shiftLeft_eq, Nat.shiftLeft_eq, Nat.shiftLeft_eq]
  have hb : b % 64 * 2 ^ 12 < 2 ^ 18 := by
    have := Nat.mod_lt b (by norm_num : 0 < 64)
    norm_num
    omega
  have hc : c % 64 * 2 ^ 6 < 2 ^ 12 := by
    have := Nat.mod_lt c (by norm_num : 0 < 64)
    norm_num
    omega
  have e1 := Nat.mul_add_lt_is_or hb (a % 8)
  have e2 := Nat.mul_add_lt_is_or hc (a % 8 * 64 + b % 64)
  have e3 := Nat.mul_add_lt_is_or (Nat.mod_lt d (by norm_num : 0 < 2 ^ 6))
    (a % 8 * 4096 + b % 64 * 64 + c % 64)
  norm_num at e1 e2 e3 ⊢
  have e1' : a % 8 * 262144 ||| b % 64 * 4096 = a % 8 * 262144 + b % 64 * 4096 := by
    rw [Nat.mul_comm (a % 8) 262144, ← e1]
  rw [e1']
  have f2 : a % 8 * 262144 + b % 64 * 4096 = 4096 * (a % 8 * 64 + b % 64) := by ring
  rw [f2, ← e2]
  have f3 : 4096 * (a % 8 * 64 + b % 64) + c % 64 * 64
      = 64 * (a % 8 * 4096 + b % 64 * 64 + c % 64) := by ring
  rw [f3, ← e3]

theorem IsSpace_iff (r : Nat) : IsSpace r = true ↔
    (r ≤ 0xFF ∧ (r = 0x09 ∨ r = 0x0A ∨ r = 0x0B ∨ r = 0x0C ∨ r = 0x0D ∨ r = 0x20 ∨ r = 0x85
      ∨ r = 0xA0)) ∨
    (0xFF < r ∧ (r = 0x1680 ∨ (0x2000 ≤ r ∧ r ≤ 0x200A) ∨ r = 0x2028 ∨ r = 0x2029
      ∨ r = 0x202F ∨ r = 0x205F ∨ r = 0x3000)) := by
  unfold IsSpace
  split_ifs with h
  · simp only [decide_eq_true_eq]
    omega
  · simp only [decide_eq_true_eq]
    omega

theorem whiteSpace1_iff (a : Fin 256) : whiteSpace1 a = true ↔
    (a.val = 0x09 ∨ a.val = 0x0A ∨ a.val = 0x0B ∨ a.val = 0x0C ∨ a.val = 0x0D ∨ a.val = 0x20) := by
  simp [whiteSpace1]

theorem whiteSpace2_iff (a b : Fin 256) : whiteSpace2 a b = true ↔
    (a.val = 0xC2 ∧ (b.val = 0x85 ∨ b.val = 0xA0)) := by
  simp [whiteSpace2]

theorem whiteSpace3_iff (a b c : Fin 256) : whiteSpace3 a b c = true ↔
    ((a.val = 0xE1 ∧ b.val = 0x9A ∧ c.val = 0x80) ∨
    (a.val = 0xE2 ∧ b.val = 0x80 ∧
      ((0x80 ≤ c.val ∧ c.val ≤ 0x8A) ∨ c.val = 0xA8 ∨ c.val = 0xA9 ∨ c.val = 0xAF)) ∨
    (a.val = 0xE2 ∧ b.val = 0x81 ∧ c.val = 0x9F) ∨
    (a.val = 0xE3 ∧ b.val = 0x80 ∧ c.val = 0x80)) := by
  simp [whiteSpace3]

/-- The rune and width `DecodeRuneInString` yields, in arithmetic form. -/
theorem decode_ascii (a : Fin 256) (t : GoString) (h : a.val < 0x80) :
    DecodeRuneInString (a :: t) = (a.val, 1) := by
  simp [DecodeRuneInString, h]

theorem decode_two (a b : Fin 256) (t : GoString)
    (ha : 0xC2 ≤ a.val ∧ a.val < 0xE0) (hb : 0x80 ≤ b.val ∧ b.val ≤ 0xBF) :
    DecodeRuneInString (a :: b :: t) = (a.val % 32 * 64 + b.val % 64, 2) := by
  have h1 : ¬ a.val < 0x80 := by omega
  have h2 : ¬ (a.val < 0xC2 ∨ 0xF4 < a.val) := by omega
  have h3 : a.val < 0xE0 := ha.2
  have h4 : ¬ a.val = 0xE0 := by omega
  have h5 : ¬ a.val = 0xF0 := by omega
  have h6 : ¬ a.val = 0xED := by omega
  have h7 : ¬ a.val = 0xF4 := by omega
  have h8 : ¬ (b.val < 0x80 ∨ 0xBF < b.val) := by omega
  simp only [DecodeRuneInString, h1, h2, h3, h4, h5, h6, h7, h8, if_true, if_false,
    List.length_cons, rune2_eq]
  simp

theorem decode_three (a b c : Fin 256) (t : GoString)
    (ha : 0xE0 ≤ a.val ∧ a.val < 0xF0) (hb : 0x80 ≤ b.val ∧ b.val ≤ 0xBF)
    (hlo : a.val = 0xE0 → 0xA0 ≤ b.val) (hhi : a.val = 0xED → b.val ≤ 0x9F)
    (hc : 0x80 ≤ c.val ∧ c.val ≤ 0xBF) :
    DecodeRuneInString (a :: b :: c :: t) =
      (a.val % 16 * 4096 + b.val % 64 * 64 + c.val % 64, 3) := by
  have h1 : ¬ a.val < 0x80 := by omega
  have h2 : ¬ (a.val < 0xC2 ∨ 0xF4 < a.val) := by omega
  have h3 : ¬ a.val < 0xE0 := by omega
  have h4 : a.val < 0xF0 := ha.2
  have h5 : ¬ a.val = 0xF0 := by omega
  have h7 : ¬ a.val = 0xF4 := by omega
  have h8 : ¬ (c.val < 0x80 ∨ 0xBF < c.val) := by omega
  have hlen : ¬ (t.length + 1 + 1 + 1 < 3) := by omega
  by_cases e0 : a.val = 0xE0
  · have hb' : ¬ (b.val < 0xA0 ∨ 0xBF < b.val) := by have := hlo e0; omega
    have h6 : ¬ a.val = 0xED := by omega
    simp only [DecodeRuneInString, h1, h2, h3, h4, h5, h6, h7, h8, hb', eq_true e0, hlen,
      if_true, if_false, List.length_cons, rune3_eq, Nat.reduceLeDiff]
  · by_cases ed : a.val = 0xED
    · have hb' : ¬ (b.val < 0x80 ∨ 0x9F < b.val) := by have := hhi ed; omega
      simp only [DecodeRuneInString, h1, h2, h3, h4, h5, h7, h8, hb', e0, eq_true ed, hlen,
        if_true, if_false, List.length_cons, rune3_eq, Nat.reduceLeDiff]
    · have hb' : ¬ (b.val < 0x80 ∨ 0xBF < b.val) := by omega
      simp only [DecodeRuneInString, h1, h2, h3, h4, h5, h7, h8, hb', e0, ed, hlen,
        if_true, if_false, List.length_cons, rune3_eq, Nat.reduceLeDiff]

theorem decode_four (a b c d : Fin 256) (t : GoString)
    (ha : 0xF0 ≤ a.val ∧ a.val ≤ 0xF4) (hb : 0x80 ≤ b.val ∧ b.val ≤ 0xBF)
    (hlo : a.val = 0xF0 → 0x90 ≤ b.val) (hhi : a.val = 0xF4 → b.val ≤ 0x8F)
    (hc : 0x80 ≤ c.val ∧ c.val ≤ 0xBF) (hd : 0x80 ≤ d.val ∧ d.val ≤ 0xBF) :
    DecodeRuneInString (a :: b :: c :: d :: t) =
      (a.val % 8 * 262144 + b.val % 64 * 4096 + c.val % 64 * 64 + d.val % 64, 4) := by
  have h1 : ¬ a.val < 0x80 := by omega
  have h2 : ¬ (a.val < 0xC2 ∨ 0xF4 < a.val) := by omega
  have h3 : ¬ a.val < 0xE0 := by omega
  have h4 : ¬ a.val < 0xF0 := by omega
  have h5 : ¬ a.val = 0xE0 := by omega
  have h6 : ¬ a.val = 0xED := by omega
  have h8 : ¬ (c.val < 0x80 ∨ 0xBF < c.val) := by omega
  have h9 : ¬ (d.val < 0x80 ∨ 0xBF < d.val) := by omega
  have hlen : ¬ (t.length + 1 + 1 + 1 + 1 < 4) := by omega
  by_cases e0 : a.val = 0xF0
  · have hb' : ¬ (b.val < 0x90 ∨ 0xBF < b.val) := by have := hlo e0; omega
    have h7 : ¬ a.val = 0xF4 := by omega
    simp only [DecodeRuneInString, h1, h2, h3, h4, h5, h6, h7, h8, h9, hb', eq_true e0, hlen,
      if_true, if_false, List.length_cons, rune4_eq, Nat.reduceLeDiff]
  · by_cases e4 : a.val = 0xF4
    · have hb' : ¬ (b.val < 0x80 ∨ 0x8F < b.val) := by have := hhi e4; omega
      simp only [DecodeRuneInString, h1, h2, h3, h4, h5, h6, h8, h9, hb', e0, eq_true e4, hlen,
        if_true, if_false, List.length_cons, rune4_eq, Nat.reduceLeDiff]
    · have hb' : ¬ (b.val < 0x80 ∨ 0xBF < b.val) := by omega
      simp only [DecodeRuneInString, h1, h2, h3, h4, h5, h6, h8, h9, hb', e0, e4, hlen,
        if_true, if_false, List.length_cons, rune4_eq, Nat.reduceLeDiff]

theorem decode_err1 (a : Fin 256) (ha : 0x80 ≤ a.val) :
    DecodeRuneInString [a] = (RuneError, 1) := by
  simp only [DecodeRuneInString, List.length_cons, List.length_nil]
  split_ifs <;> first | rfl | (exfalso; omega)

theorem decode_err_lead (a : Fin 256) (t : GoString) (ha : 0x80 ≤ a.val)
    (h : a.val < 0xC2 ∨ 0xF4 < a.val) : DecodeRuneInString (a :: t) = (RuneError, 1) := by
  have h1 : ¬ a.val < 0x80 := by omega
  simp only [DecodeRuneInString, h1, h, if_true, if_false]

theorem decode_err_second (a b : Fin 256) (t : GoString) (ha : 0x80 ≤ a.val)
    (hb : b.val < (if a.val = 0xE0 then 0xA0 else if a.val = 0xF0 then 0x90 else 0x80) ∨
      (if a.val = 0xED then 0x9F else if a.val = 0xF4 then 0x8F else 0xBF) < b.val) :
    DecodeRuneInString (a :: b :: t) = (RuneError, 1) := by
  have h1 : ¬ a.val < 0x80 := by omega
  by_cases h2 : a.val < 0xC2 ∨ 0xF4 < a.val
  · exact decode_err_lead a _ ha h2
  · by_cases hl : t.length + 1 + 1 <
        (if a.val < 0xE0 then 2 else if a.val < 0xF0 then 3 else 4)
    · simp only [DecodeRuneInString, h1, h2, hl, List.length_cons, if_true, if_false]
    · simp only [DecodeRuneInString, h1, h2, hl, hb, List.length_cons, if_true, if_false]

theorem decode_err_third (a b c : Fin 256) (t : GoString) (ha : 0xE0 ≤ a.val)
    (hc : c.val < 0x80 ∨ 0xBF < c.val) :
    DecodeRuneInString (a :: b :: c :: t) = (RuneError, 1) := by
  have h1 : ¬ a.val < 0x80 := by omega
  have h3 : ¬ a.val < 0xE0 := by omega
  by_cases h2 : a.val < 0xC2 ∨ 0xF4 < a.val
  · exact decode_err_lead a _ (by omega) h2
  · by_cases hb : b.val < (if a.val = 0xE0 then 0xA0 else if a.val = 0xF0 then 0x90 else 0x80) ∨
        (if a.val = 0xED then 0x9F else if a.val = 0xF4 then 0x8F else 0xBF) < b.val
    · exact decode_err_second a b _ (by omega) hb
    · by_cases h4 : a.val < 0xF0
      · have hl : ¬ (t.length + 1 + 1 + 1 < 3) := by omega
        simp only [DecodeRuneInString, h1, h2, h3, h4, hl, hb, hc, List.length_cons, if_true,
          if_false, Nat.reduceLeDiff]
      · by_cases hl : t.length + 1 + 1 + 1 < 4
        · simp only [DecodeRuneInString, h1, h2, h3, h4, hl, List.length_cons, if_true,
            if_false]
        · simp only [DecodeRuneInString, h1, h2, h3, h4, hl, hb, hc, List.length_cons, if_true,
            if_false, Nat.reduceLeDiff]

theorem decode_err_fourth (a b c d : Fin 256) (t : GoString) (ha : 0xF0 ≤ a.val)
    (hd : d.val < 0x80 ∨ 0xBF < d.val) :
    DecodeRuneInString (a :: b :: c :: d :: t) = (RuneError, 1) := by
  have h1 : ¬ a.val < 0x80 := by omega
  have h3 : ¬ a.val < 0xE0 := by omega
  have h4 : ¬ a.val < 0xF0 := by omega
  have hl : ¬ (t.length + 1 + 1 + 1 + 1 < 4) := by omega
  by_cases h2 : a.val < 0xC2 ∨ 0xF4 < a.val
  · exact decode_err_lead a _ (by omega) h2
  · by_cases hb : b.val < (if a.val = 0xE0 then 0xA0 else if a.val = 0xF0 then 0x90 else 0x80) ∨
        (if a.val = 0xED then 0x9F else if a.val = 0xF4 then 0x8F else 0xBF) < b.val
    · exact decode_err_second a b _ (by omega) hb
    · by_cases hc : c.val < 0x80 ∨ 0xBF < c.val
      · exact decode_err_third a b c _ (by omega) hc
      · simp only [DecodeRuneInString, h1, h2, h3, h4, hl, hb, hc, hd, List.length_cons,
          if_true, if_false, Nat.reduceLeDiff]

theorem decode_err_short2 (a b : Fin 256) (ha : 0xE0 ≤ a.val) :
    DecodeRuneInString [a, b] = (RuneError, 1) := by
  have h1 : ¬ a.val < 0x80 := by omega
  have h3 : ¬ a.val < 0xE0 := by omega
  by_cases h2 : a.val < 0xC2 ∨ 0xF4 < a.val
  · exact decode_err_lead a _ (by omega) h2
  · by_cases h4 : a.val < 0xF0
    · simp only [DecodeRuneInString, h1, h2, h3, h4, List.length_cons, List.length_nil,
        if_true, if_false, Nat.reduceAdd, Nat.reduceLT]
    · simp only [DecodeRuneInString, h1, h2, h3, h4, List.length_cons, List.length_nil,
        if_true, if_false, Nat.reduceAdd, Nat.reduceLT]

theorem decode_err_short3 (a b c : Fin 256) (ha : 0xF0 ≤ a.val) :
    DecodeRuneInString [a, b, c] = (RuneError, 1) := by
  have h1 : ¬ a.val < 0x80 := by omega
  have h3 : ¬ a.val < 0xE0 := by omega
  have h4 : ¬ a.val < 0xF0 := by omega
  by_cases h2 : a.val < 0xC2 ∨ 0xF4 < a.val
  · exact decode_err_lead a _ (by omega) h2
  · simp only [DecodeRuneInString, h1, h2, h3, h4, List.length_cons, List.length_nil,
      if_true, if_false, Nat.reduceAdd, Nat.reduceLT]

/-- The outcomes of `DecodeRuneInString` on a non-empty string: an ASCII byte, an
invalid encoding, or a well-formed sequence of two, three or four bytes with the rune it
encodes. -/
theorem decode_cases (a : Fin 256) (t : GoString) :
    (a.val < 0x80 ∧ DecodeRuneInString (a :: t) = (a.val, 1)) ∨
    (0x80 ≤ a.val ∧ DecodeRuneInString (a :: t) = (RuneError, 1)) ∨
    (∃ b t1, t = b :: t1 ∧ seq2 a.val b.val ∧
      DecodeRuneInString (a :: t) = (a.val % 32 * 64 + b.val % 64, 2)) ∨
    (∃ b c t2, t = b :: c :: t2 ∧ seq3 a.val b.val c.val ∧
      DecodeRuneInString (a :: t) =
        (a.val % 16 * 4096 + b.val % 64 * 64 + c.val % 64, 3)) ∨
    (∃ b c d t3, t = b :: c :: d :: t3 ∧ seq4 a.val b.val c.val d.val ∧
      DecodeRuneInString (a :: t) =
        (a.val % 8 * 262144 + b.val % 64 * 4096 + c.val % 64 * 64 + d.val % 64, 4)) := by
  by_cases h1 : a.val < 0x80
  · exact Or.inl ⟨h1, decode_ascii a t h1⟩
  have ha : 0x80 ≤ a.val := by omega
  by_cases h2 : a.val < 0xC2 ∨ 0xF4 < a.val
  · exact Or.inr (Or.inl ⟨ha, decode_err_lead a t ha h2⟩)
  rcases t with _ | ⟨b, t1⟩
  · exact Or.inr (Or.inl ⟨ha, decode_err1 a ha⟩)
  by_cases hacc : 0x80 ≤ b.val ∧ b.val ≤ 0xBF ∧ (a.val = 0xE0 → 0xA0 ≤ b.val) ∧
      (a.val = 0xED → b.val ≤ 0x9F) ∧ (a.val = 0xF0 → 0x90 ≤ b.val) ∧
      (a.val = 0xF4 → b.val ≤ 0x8F)
  swap
  · refine Or.inr (Or.inl ⟨ha, decode_err_second a b t1 ha ?_⟩)
    split_ifs <;> omega
  obtain ⟨hb1, hb2, hb3, hb4, hb5, hb6⟩ := hacc
  by_cases h3 : a.val < 0xE0
  · exact Or.inr (Or.inr (Or.inl ⟨b, t1, rfl, ⟨by omega, h3, hb1, hb2⟩,
      decode_two a b t1 ⟨by omega, h3⟩ ⟨hb1, hb2⟩⟩))
  rcases t1 with _ | ⟨c, t2⟩
  · exact Or.inr (Or.inl ⟨ha, decode_err_short2 a b (by omega)⟩)
  by_cases hc : c.val < 0x80 ∨ 0xBF < c.val
  · exact Or.inr (Or.inl ⟨ha, decode_err_third a b c t2 (by omega) hc⟩)
  by_cases h4 : a.val < 0xF0
  · exact Or.inr (Or.inr (Or.inr (Or.inl ⟨b, c, t2, rfl,
      ⟨by omega, h4, hb1, hb2, hb3, hb4, by omega, by omega⟩,
      decode_three a b c t2 ⟨by omega, h4⟩ ⟨hb1, hb2⟩ hb3 hb4 ⟨by omega, by omega⟩⟩)))
  rcases t2 with _ | ⟨d, t3⟩
  · exact Or.inr (Or.inl ⟨ha, decode_err_short3 a b c (by omega)⟩)
  by_cases hd : d.val < 0x80 ∨ 0xBF < d.val
  · exact Or.inr (Or.inl ⟨ha, decode_err_fourth a b c d t3 (by omega) hd⟩)
  exact Or.inr (Or.inr (Or.inr (Or.inr ⟨b, c, d, t3, rfl,
    ⟨by omega, by omega, hb1, hb2, hb5, hb6, by omega, by omega, by omega, by omega⟩,
    decode_four a b c d t3 ⟨by omega, by omega⟩ ⟨hb1, hb2⟩ hb5 hb6 ⟨by omega, by omega⟩
      ⟨by omega, by omega⟩⟩)))

theorem leadLen_ws1 (a : Fin 256) (t : GoString) (h : whiteSpace1 a = true) :
    leadLen (a :: t) = 1 := by
  simp [leadLen, h]

theorem leadLen_ws2 (a b : Fin 256) (t : GoString) (h : whiteSpace2 a b = true) :
    leadLen (a :: b :: t) = 2 := by
  have h1 : whiteSpace1 a = false := by
    rw [whiteSpace2_iff] at h
    rw [← Bool.not_eq_true, whiteSpace1_iff]
    omega
  simp [leadLen, h, h1]

theorem leadLen_ws3 (a b c : Fin 256) (t : GoString) (h : whiteSpace3 a b c = true) :
    leadLen (a :: b :: c :: t) = 3 := by
  have h1 : whiteSpace1 a = false := by
    rw [whiteSpace3_iff] at h
    rw [← Bool.not_eq_true, whiteSpace1_iff]
    omega
  have h2 : whiteSpace2 a b = false := by
    rw [whiteSpace3_iff] at h
    rw [← Bool.not_eq_true, whiteSpace2_iff]
    omega
  simp [leadLen, h, h1, h2]

/-- A string with a white space character at its front has one of three shapes. -/
theorem leadLen_ne_zero (l : GoString) (h : leadLen l ≠ 0) :
    (∃ a t, l = a :: t ∧ whiteSpace1 a = true ∧ leadLen l = 1) ∨
    (∃ a b t, l = a :: b :: t ∧ whiteSpace2 a b = true ∧ leadLen l = 2) ∨
    (∃ a b c t, l = a :: b :: c :: t ∧ whiteSpace3 a b c = true ∧ leadLen l = 3) := by
  rcases l with _ | ⟨a, t⟩
  · simp [leadLen] at h
  by_cases h1 : whiteSpace1 a = true
  · exact Or.inl ⟨a, t, rfl, h1, leadLen_ws1 a t h1⟩
  rcases t with _ | ⟨b, t1⟩
  · simp [leadLen, h1] at h
  by_cases h2 : whiteSpace2 a b = true
  · exact Or.inr (Or.inl ⟨a, b, t1, rfl, h2, leadLen_ws2 a b t1 h2⟩)
  rcases t1 with _ | ⟨c, t2⟩
  · simp [leadLen, h1, h2] at h
  by_cases h3 : whiteSpace3 a b c = true
  · exact Or.inr (Or.inr ⟨a, b, c, t2, rfl, h3, leadLen_ws3 a b c t2 h3⟩)
  · simp [leadLen, h1, h2, h3] at h

theorem leadLen_le (l : GoString) : leadLen l ≤ l.length ∧ leadLen l ≤ 3 := by
  by_cases h : leadLen l = 0
  · omega
  rcases leadLen_ne_zero l h with ⟨a, t, rfl, _, e⟩ | ⟨a, b, t, rfl, _, e⟩ |
    ⟨a, b, c, t, rfl, _, e⟩ <;> simp [e]

/-- When the string starts with a white space character, `DecodeRuneInString` yields a
rune that `IsSpace` accepts, of the width of the character. -/
theorem decode_of_leadLen (l : GoString) (h : leadLen l ≠ 0) :
    IsSpace (DecodeRuneInString l).1 = true ∧ (DecodeRuneInString l).2 = leadLen l := by
  rcases leadLen_ne_zero l h with ⟨a, t, rfl, hw, e⟩ | ⟨a, b, t, rfl, hw, e⟩ |
    ⟨a, b, c, t, rfl, hw, e⟩
  · rw [whiteSpace1_iff] at hw
    rw [decode_ascii a t (by omega), e, IsSpace_iff]
    exact ⟨by omega, rfl⟩
  · rw [whiteSpace2_iff] at hw
    rw [decode_two a b t (by omega) (by omega), e, IsSpace_iff]
    exact ⟨by omega, rfl⟩
  · rw [whiteSpace3_iff] at hw
    rw [decode_three a b c t (by omega) (by omega) (by omega) (by omega) (by omega), e,
      IsSpace_iff]
    exact ⟨by omega, rfl⟩

/-- When `DecodeRuneInString` yields a rune that `IsSpace` accepts, the string starts with
a white space character. -/
theorem leadLen_of_decode (l : GoString) (h : IsSpace (DecodeRuneInString l).1 = true) :
    leadLen l ≠ 0 := by
  rcases l with _ | ⟨a, t⟩
  · simp [DecodeRuneInString, IsSpace, RuneError] at h
  rcases decode_cases a t with ⟨ha, e⟩ | ⟨ha, e⟩ | ⟨b, t1, rfl, hs, e⟩ |
    ⟨b, c, t2, rfl, hs, e⟩ | ⟨b, c, d, t3, rfl, hs, e⟩
  · rw [e, IsSpace_iff] at h
    have hw : whiteSpace1 a = true := by
      rw [whiteSpace1_iff]
      simp only at h
      omega
    rw [leadLen_ws1 a t hw]
    omega
  · rw [e] at h
    simp [IsSpace, RuneError] at h
  · rw [e, IsSpace_iff] at h
    unfold seq2 at hs
    have hw : whiteSpace2 a b = true := by
      rw [whiteSpace2_iff]
      simp only at h
      omega
    rw [leadLen_ws2 a b t1 hw]
    omega
  · rw [e, IsSpace_iff] at h
    unfold seq3 at hs
    have ea : a.val % 16 = a.val - 224 := by omega
    have eb : b.val % 64 = b.val - 128 := by omega
    have ec : c.val % 64 = c.val - 128 := by omega
    simp only [ea, eb, ec] at h
    have hw : whiteSpace3 a b c = true := by
      rw [whiteSpace3_iff]
      rcases h with ⟨h1, _⟩ | ⟨_, h2⟩
      · exfalso
        omega
      · rcases h2 with h2 | h2 | h2 | h2 | h2 | h2 | h2
        · have : a.val = 0xE1 ∧ b.val = 0x9A ∧ c.val = 0x80 := by omega
          exact Or.inl this
        · have : a.val = 0xE2 ∧ b.val = 0x80 ∧ 0x80 ≤ c.val ∧ c.val ≤ 0x8A := by omega
          exact Or.inr (Or.inl ⟨this.1, this.2.1, Or.inl this.2.2⟩)
        · have : a.val = 0xE2 ∧ b.val = 0x80 ∧ c.val = 0xA8 := by omega
          exact Or.inr (Or.inl ⟨this.1, this.2.1, Or.inr (Or.inl this.2.2)⟩)
        · have : a.val = 0xE2 ∧ b.val = 0x80 ∧ c.val = 0xA9 := by omega
          exact Or.inr (Or.inl ⟨this.1, this.2.1, Or.inr (Or.inr (Or.inl this.2.2))⟩)
        · have : a.val = 0xE2 ∧ b.val = 0x80 ∧ c.val = 0xAF := by omega
          exact Or.inr (Or.inl ⟨this.1, this.2.1, Or.inr (Or.inr (Or.inr this.2.2))⟩)
        · have : a.val = 0xE2 ∧ b.val = 0x81 ∧ c.val = 0x9F := by omega
          exact Or.inr (Or.inr (Or.inl this))
        · have : a.val = 0xE3 ∧ b.val = 0x80 ∧ c.val = 0x80 := by omega
          exact Or.inr (Or.inr (Or.inr this))
    rw [leadLen_ws3 a b c t2 hw]
    omega
  · rw [e, IsSpace_iff] at h
    unfold seq4 at hs
    have ea : a.val % 8 = a.val - 240 := by omega
    have eb : b.val % 64 = b.val - 128 := by omega
    simp only [ea, eb] at h
    exfalso
    rcases h with ⟨h1, _⟩ | ⟨_, h2⟩
    · omega
    · rcases h2 with h2 | h2 | h2 | h2 | h2 | h2 | h2 <;> omega

theorem dropLeading_step (l : GoString) :
    dropLeadingWhiteSpace l =
      if leadLen l = 0 then l else dropLeadingWhiteSpace (l.drop (leadLen l)) := by
  by_cases h : leadLen l = 0
  · rw [if_pos h]
    rcases l with _ | ⟨a, t⟩
    · rfl
    have h1 : whiteSpace1 a = false := by
      by_contra hc
      rw [leadLen_ws1 a t (by simpa using hc)] at h
      omega
    rcases t with _ | ⟨b, t1⟩
    · simp [dropLeadingWhiteSpace, h1]
    have h2 : whiteSpace2 a b = false := by
      by_contra hc
      rw [leadLen_ws2 a b t1 (by simpa using hc)] at h
      omega
    rcases t1 with _ | ⟨c, t2⟩
    · simp [dropLeadingWhiteSpace, h1, h2]
    have h3 : whiteSpace3 a b c = false := by
      by_contra hc
      rw [leadLen_ws3 a b c t2 (by simpa using hc)] at h
      omega
    simp [dropLeadingWhiteSpace, h1, h2, h3]
  · rw [if_neg h]
    rcases leadLen_ne_zero l h with ⟨a, t, rfl, hw, e⟩ | ⟨a, b, t, rfl, hw, e⟩ |
      ⟨a, b, c, t, rfl, hw, e⟩
    · rw [e]
      rcases t with _ | ⟨b, _ | ⟨c, t2⟩⟩ <;> simp [dropLeadingWhiteSpace, hw]
    · have h1 : whiteSpace1 a = false := by
        rw [whiteSpace2_iff] at hw
        rw [← Bool.not_eq_true, whiteSpace1_iff]
        omega
      rw [e]
      rcases t with _ | ⟨c, t2⟩ <;> simp [dropLeadingWhiteSpace, hw, h1]
    · have h1 : whiteSpace1 a = false := by
        rw [whiteSpace3_iff] at hw
        rw [← Bool.not_eq_true, whiteSpace1_iff]
        omega
      have h2 : whiteSpace2 a b = false := by
        rw [whiteSpace3_iff] at hw
        rw [← Bool.not_eq_true, whiteSpace2_iff]
        omega
      rw [e]
      simp [dropLeadingWhiteSpace, hw, h1, h2]

theorem indexFuncFrom_skip (f : Nat → Bool) (truth : Bool) (k : Nat) :
    ∀ (i : Nat) (l : GoString),
      indexFuncFrom f truth i k l = indexFuncFrom f truth (i + k) 0 (l.drop k) := by
  induction k with
  | zero => intro i l; simp
  | succ k ih =>
    intro i l
    cases l with
    | nil => simp [indexFuncFrom]
    | cons x t =>
      rw [indexFuncFrom, ih (i + 1) t]
      simp only [List.drop_succ_cons]
      congr 1
      omega

/-- The loop of `indexFunc` for `IsSpace` stops at the first byte after the leading
white space. -/
theorem indexFuncFrom_space (n : Nat) :
    ∀ (l : GoString) (i : Nat), l.length ≤ n →
      (dropLeadingWhiteSpace l = [] → indexFuncFrom IsSpace false i 0 l = -1) ∧
      (dropLeadingWhiteSpace l ≠ [] →
        ∃ k, indexFuncFrom IsSpace false i 0 l = ((i + k : Nat) : Int) ∧
          l.drop k = dropLeadingWhiteSpace l) := by
  induction n with
  | zero =>
    intro l i hl
    have : l = [] := List.length_eq_zero.mp (by omega)
    subst this
    simp [dropLeadingWhiteSpace, indexFuncFrom]
  | succ n ih =>
    intro l i hl
    rcases l with _ | ⟨b, t⟩
    · simp [dropLeadingWhiteSpace, indexFuncFrom]
    by_cases h : leadLen (b :: t) = 0
    · have hns : IsSpace (DecodeRuneInString (b :: t)).1 = false := by
        by_contra hc
        exact leadLen_of_decode _ (by simpa using hc) h
      have hd : dropLeadingWhiteSpace (b :: t) = b :: t := by
        rw [dropLeading_step, if_pos h]
      rw [hd]
      constructor
      · intro hc
        simp at hc
      · intro _
        refine ⟨0, ?_, rfl⟩
        rw [indexFuncFrom]
        simp [hns]
    · obtain ⟨hs, hsz⟩ := decode_of_leadLen _ h
      have hle := leadLen_le (b :: t)
      have hd : dropLeadingWhiteSpace (b :: t) =
          dropLeadingWhiteSpace ((b :: t).drop (leadLen (b :: t))) := by
        rw [dropLeading_step (b :: t), if_neg h]
      have hidx : indexFuncFrom IsSpace false i 0 (b :: t) =
          indexFuncFrom IsSpace false (i + leadLen (b :: t)) 0
            ((b :: t).drop (leadLen (b :: t))) := by
        rw [indexFuncFrom]
        simp only [hs, Bool.true_eq_false, if_false, hsz]
        rw [indexFuncFrom_skip]
        obtain ⟨m, hm⟩ : ∃ m, leadLen (b :: t) = m + 1 := ⟨leadLen (b :: t) - 1, by omega⟩
        rw [hm]
        simp only [Nat.add_sub_cancel, List.drop_succ_cons]
        congr 1
        omega
      have hlen : ((b :: t).drop (leadLen (b :: t))).length ≤ n := by
        simp only [List.length_drop, List.length_cons] at hl ⊢
        omega
      obtain ⟨ih1, ih2⟩ := ih _ (i + leadLen (b :: t)) hlen
      rw [hd, hidx]
      constructor
      · exact ih1
      · intro hne
        obtain ⟨k, hk1, hk2⟩ := ih2 hne
        refine ⟨leadLen (b :: t) + k, ?_, ?_⟩
        · rw [hk1]
          congr 1
          omega
        · rw [← hk2, List.drop_drop]

theorem TrimLeftFunc_IsSpace (s : GoString) :
    TrimLeftFunc s IsSpace = dropLeadingWhiteSpace s := by
  obtain ⟨h1, h2⟩ := indexFuncFrom_space s.length s 0 (Nat.le_refl _)
  unfold TrimLeftFunc indexFunc
  by_cases he : dropLeadingWhiteSpace s = []
  · simp [h1 he, he]
  · obtain ⟨k, hk1, hk2⟩ := h2 he
    rw [hk1]
    simp only [Nat.zero_add]
    have : ¬ ((k : Int) = -1) := by omega
    simp [this, hk2]

theorem getD_tail (p q : GoString) (k : Nat) :
    (p ++ q).getD (p.length + k) 0 = q.getD k 0 := by
  rw [List.getD_append_right _ _ _ _ (by omega)]
  congr 1
  omega

theorem decodeLast_ascii (p : GoString) (b : Fin 256) (hb : b.val < 0x80) :
    DecodeLastRuneInString (p ++ [b]) = (b.val, 1) := by
  have hn : (p ++ [b]).length = p.length + 1 := by simp
  have hg : (p ++ [b]).getD (p.length + 1 - 1) 0 = b := by
    have h0 := getD_tail p [b] 0
    rw [Nat.add_zero] at h0
    rw [Nat.add_sub_cancel, h0]
    rfl
  unfold DecodeLastRuneInString
  simp only [hn, hg, Nat.add_one_ne_zero, if_false, RuneSelf, hb, if_true]

theorem decodeLast_four (p : GoString) (e d c b : Fin 256) (hb : 0x80 ≤ b.val) :
    DecodeLastRuneInString (p ++ [e, d, c, b]) =
      if (if RuneStart c then p.length + 2 else if RuneStart d then p.length + 1
            else if RuneStart e then p.length else p.length - 1) +
          (DecodeRuneInString ((p ++ [e, d, c, b]).drop
            (if RuneStart c then p.length + 2 else if RuneStart d then p.length + 1
              else if RuneStart e then p.length else p.length - 1))).2 ≠ p.length + 4
      then (RuneError, 1)
      else DecodeRuneInString ((p ++ [e, d, c, b]).drop
            (if RuneStart c then p.length + 2 else if RuneStart d then p.length + 1
              else if RuneStart e then p.length else p.length - 1)) := by
  have hn : (p ++ [e, d, c, b]).length = p.length + 4 := by simp
  have hg : (p ++ [e, d, c, b]).getD (p.length + 4 - 1) 0 = b := by
    have := getD_tail p [e, d, c, b] 3
    simpa using this
  have hc : (p ++ [e, d, c, b]).getD (p.length + 4 - 2 - 0) 0 = c := by
    have := getD_tail p [e, d, c, b] 2
    simpa using this
  have hd : (p ++ [e, d, c, b]).getD (p.length + 4 - 2 - 1) 0 = d := by
    have := getD_tail p [e, d, c, b] 1
    have h' : p.length + 4 - 2 - 1 = p.length + 1 := by omega
    rw [h']
    simpa using this
  have he : (p ++ [e, d, c, b]).getD (p.length + 4 - 2 - 2) 0 = e := by
    have := getD_tail p [e, d, c, b] 0
    have h' : p.length + 4 - 2 - 2 = p.length + 0 := by omega
    rw [h']
    simpa using this
  have hm : p.length + 4 - 1 - (p.length + 4 - 4) = 3 := by omega
  have hr : List.range 3 = [0, 1, 2] := by decide
  have hnb : ¬ b.val < 0x80 := by omega
  unfold DecodeLastRuneInString
  simp only [hn, hg, hm, hr, Nat.add_one_ne_zero, if_false, RuneSelf, hnb, List.map_cons,
    List.map_nil, List.find?_cons, List.find?_nil, hc, hd, he]
  have e2 : p.length + 4 - 2 - 0 = p.length + 2 := by omega
  have e1 : p.length + 4 - 2 - 1 = p.length + 1 := by omega
  have e0 : p.length + 4 - 2 - 2 = p.length := by omega
  have el : p.length + 4 - 4 - 1 = p.length - 1 := by omega
  rw [e2, e1, e0, el]
  cases RuneStart c <;> cases RuneStart d <;> cases RuneStart e <;> simp

theorem decodeLast_one (b : Fin 256) (hb : 0x80 ≤ b.val) :
    DecodeLastRuneInString [b] = (RuneError, 1) := by
  have hnb : ¬ b.val < 0x80 := by omega
  have hd := decode_err1 b hb
  unfold DecodeLastRuneInString
  simp [RuneSelf, hnb, hd]

theorem decodeLast_two (c b : Fin 256) (hb : 0x80 ≤ b.val) :
    DecodeLastRuneInString [c, b] =
      if (DecodeRuneInString [c, b]).2 ≠ 2 then (RuneError, 1)
      else DecodeRuneInString [c, b] := by
  have hnb : ¬ b.val < 0x80 := by omega
  have hr : List.range 1 = [0] := by decide
  unfold DecodeLastRuneInString
  simp only [List.length_cons, List.length_nil, RuneSelf]
  simp only [Nat.reduceAdd, Nat.reduceSub, hr, List.map_cons, List.map_nil, List.find?_cons,
    List.find?_nil, List.getD_cons_zero, List.getD_cons_succ, hnb, if_false,
    OfNat.ofNat_ne_zero, Nat.zero_add]
  cases RuneStart c <;> simp

theorem decodeLast_three (d c b : Fin 256) (hb : 0x80 ≤ b.val) :
    DecodeLastRuneInString [d, c, b] =
      if RuneStart c then
        (if (DecodeRuneInString [c, b]).2 ≠ 2 then (RuneError, 1)
          else DecodeRuneInString [c, b])
      else
        (if (DecodeRuneInString [d, c, b]).2 ≠ 3 then (RuneError, 1)
          else DecodeRuneInString [d, c, b]) := by
  have hnb : ¬ b.val < 0x80 := by omega
  have hr : List.range 2 = [0, 1] := by decide
  unfold DecodeLastRuneInString
  simp only [List.length_cons, List.length_nil, RuneSelf]
  simp only [Nat.reduceAdd, Nat.reduceSub, hr, List.map_cons, List.map_nil, List.find?_cons,
    List.find?_nil, List.getD_cons_zero, List.getD_cons_succ, hnb, if_false,
    OfNat.ofNat_ne_zero, Nat.zero_add]
  cases hc : RuneStart c <;> cases hd : RuneStart d <;> simp
  all_goals (by_cases h2 : (DecodeRuneInString [c, b]).2 = 2 <;> simp [h2]; omega)

theorem backLen_le (rev : GoString) : backLen rev ≤ rev.length ∧ backLen rev ≤ 5 := by
  rcases rev with _ | ⟨b, _ | ⟨c, _ | ⟨d, _ | ⟨e, _ | ⟨f, t⟩⟩⟩⟩⟩ <;>
    simp only [backLen, List.length_cons, List.length_nil] <;>
    first | omega | (split_ifs <;> omega)

theorem backLen_pos (b : Fin 256) (t : GoString) : 1 ≤ backLen (b :: t) := by
  rcases t with _ | ⟨c, _ | ⟨d, _ | ⟨e, _ | ⟨f, t⟩⟩⟩⟩ <;>
    simp only [backLen] <;> split_ifs <;> omega

/-- The normal form of `DecodeLastRuneInString`: it decodes the last `backLen` bytes and
keeps the result when the rune found takes up all of them. -/
theorem decodeLast_backLen (rev : GoString) (hne : rev ≠ []) :
    DecodeLastRuneInString rev.reverse =
      if (DecodeRuneInString (rev.take (backLen rev)).reverse).2 ≠ backLen rev
      then (RuneError, 1)
      else DecodeRuneInString (rev.take (backLen rev)).reverse := by
  rcases rev with _ | ⟨b, t⟩
  · exact absurd rfl hne
  by_cases hb : b.val < 0x80
  · have hk : backLen (b :: t) = 1 := by
      rcases t with _ | ⟨c, t⟩ <;> simp [backLen, hb]
    rw [hk, List.reverse_cons, decodeLast_ascii _ b hb]
    simp [decode_ascii b [] hb]
  have hb' : 0x80 ≤ b.val := by omega
  rcases t with _ | ⟨c, t1⟩
  · simp [backLen, hb, decodeLast_one b hb', decode_err1 b hb']
  rcases t1 with _ | ⟨d, t2⟩
  · have hk : backLen [b, c] = 2 := by
      simp [backLen, hb]
    rw [hk]
    simpa using decodeLast_two c b hb'
  rcases t2 with _ | ⟨e, t3⟩
  · have h3 := decodeLast_three d c b hb'
    cases hc : RuneStart c
    · have hk : backLen [b, c, d] = 3 := by
        simp [backLen, hb, hc]
      rw [hk]
      simpa [hc] using h3
    · have hk : backLen [b, c, d] = 2 := by
        simp [backLen, hb, hc]
      rw [hk]
      simpa [hc] using h3
  · have h4 := decodeLast_four t3.reverse e d c b hb'
    have hrev : (b :: c :: d :: e :: t3).reverse = t3.reverse ++ [e, d, c, b] := by simp
    rw [hrev, h4]
    cases hc : RuneStart c
    · cases hd : RuneStart d
      · cases he : RuneStart e
        · rcases t3 with _ | ⟨f, t4⟩
          · have hk : backLen [b, c, d, e] = 4 := by
              simp [backLen, hb, hc, hd, he]
            rw [hk]
            simp
          · have hk : backLen (b :: c :: d :: e :: f :: t4) = 5 := by
              simp [backLen, hb, hc, hd, he]
            rw [hk]
            have hdrop : List.drop ((f :: t4).reverse.length - 1)
                ((f :: t4).reverse ++ [e, d, c, b]) = [f, e, d, c, b] := by
              have : (f :: t4).reverse ++ [e, d, c, b] = t4.reverse ++ [f, e, d, c, b] := by
                simp
              rw [this]
              have hl : (f :: t4).reverse.length - 1 = t4.reverse.length := by simp
              rw [hl, List.drop_left]
            simp only [Bool.false_eq_true, if_false, hdrop]
            have hl : (f :: t4).reverse.length - 1 = t4.length := by simp
            have hl2 : (f :: t4).reverse.length = t4.length + 1 := by simp
            rw [hl, hl2]
            simp only [List.take, List.reverse_cons, List.reverse_nil, List.nil_append,
              List.cons_append]
            by_cases h5 : (DecodeRuneInString [f, e, d, c, b]).2 = 5
            · simp [h5]
            · simp only [h5, not_false_eq_true, if_true, ne_eq]
              split_ifs with h <;> first | (exfalso; omega) | rfl
        · have hk : backLen (b :: c :: d :: e :: t3) = 4 := by
            rcases t3 with _ | ⟨f, t4⟩ <;> simp [backLen, hb, hc, hd, he]
          rw [hk]
          simp only [Bool.false_eq_true, if_false, if_true, List.drop_left, List.take,
            List.reverse_cons, List.reverse_nil, List.nil_append, List.cons_append]
          by_cases h5 : (DecodeRuneInString [e, d, c, b]).2 = 4
          · simp [h5]
          · simp only [h5, not_false_eq_true, if_true, ne_eq]
            split_ifs with h <;> first | (exfalso; omega) | rfl
      · have hk : backLen (b :: c :: d :: e :: t3) = 3 := by
          simp [backLen, hb, hc, hd]
        rw [hk]
        have hdrop : List.drop (t3.reverse.length + 1) (t3.reverse ++ [e, d, c, b]) =
            [d, c, b] := by
          rw [List.drop_append]
          rfl
        simp only [Bool.false_eq_true, if_false, if_true, hdrop, List.take,
          List.reverse_cons, List.reverse_nil, List.nil_append, List.cons_append]
        by_cases h5 : (DecodeRuneInString [d, c, b]).2 = 3
        · simp [h5]
        · simp only [h5, not_false_eq_true, if_true, ne_eq]
          split_ifs with h <;> first | (exfalso; omega) | rfl
    · have hk : backLen (b :: c :: d :: e :: t3) = 2 := by
        simp [backLen, hb, hc]
      rw [hk]
      have hdrop : List.drop (t3.reverse.length + 2) (t3.reverse ++ [e, d, c, b]) =
          [c, b] := by
        rw [List.drop_append]
        rfl
      simp only [if_true, hdrop, List.take, List.reverse_cons, List.reverse_nil,
        List.nil_append, List.cons_append]
      by_cases h5 : (DecodeRuneInString [c, b]).2 = 2
      · simp [h5]
      · simp only [h5, not_false_eq_true, if_true, ne_eq]
        split_ifs with h <;> first | (exfalso; omega) | rfl

set_option maxRecDepth 4000 in
theorem RuneStart_false_iff (x : Fin 256) :
    RuneStart x = false ↔ (0x80 ≤ x.val ∧ x.val ≤ 0xBF) := by
  revert x
  decide

theorem decode_size_bounds (a : Fin 256) (t : GoString) :
    1 ≤ (DecodeRuneInString (a :: t)).2 ∧ (DecodeRuneInString (a :: t)).2 ≤ 4 ∧
      (2 ≤ (DecodeRuneInString (a :: t)).2 → 0xC2 ≤ a.val) := by
  rcases decode_cases a t with ⟨_, e⟩ | ⟨_, e⟩ | ⟨b, t1, rfl, hs, e⟩ |
    ⟨b, c, t2, rfl, hs, e⟩ | ⟨b, c, d, t3, rfl, hs, e⟩
  · rw [e]; simp
  · rw [e]; simp
  · rw [e]; unfold seq2 at hs; simp; omega
  · rw [e]; unfold seq3 at hs; simp; omega
  · rw [e]; unfold seq4 at hs; simp; omega

/-- A byte followed by nothing, or by a byte that is no continuation byte, decodes with
width one. -/
theorem decode_size_one (x : Fin 256) (w : GoString)
    (hw : w = [] ∨ ∃ h t, w = h :: t ∧ (h.val < 0x80 ∨ 0xBF < h.val)) :
    (DecodeRuneInString (x :: w)).2 = 1 := by
  rcases decode_cases x w with ⟨_, e⟩ | ⟨_, e⟩ | ⟨b, t1, rfl, hs, e⟩ |
    ⟨b, c, t2, rfl, hs, e⟩ | ⟨b, c, d, t3, rfl, hs, e⟩
  · rw [e]
  · rw [e]
  · exfalso
    unfold seq2 at hs
    rcases hw with hw | ⟨h, t, hw, hh⟩
    · cases hw
    · cases hw
      omega
  · exfalso
    unfold seq3 at hs
    rcases hw with hw | ⟨h, t, hw, hh⟩
    · cases hw
    · cases hw
      omega
  · exfalso
    unfold seq4 at hs
    rcases hw with hw | ⟨h, t, hw, hh⟩
    · cases hw
    · cases hw
      omega

/-- A rune that takes up a whole string of two bytes or more is decoded the same when
more bytes follow. -/
theorem decode_append (enc w : GoString) (h : (DecodeRuneInString enc).2 = enc.length)
    (h2 : 2 ≤ enc.length) : DecodeRuneInString (enc ++ w) = DecodeRuneInString enc := by
  rcases enc with _ | ⟨a, t⟩
  · simp at h2
  rcases decode_cases a t with ⟨_, e⟩ | ⟨_, e⟩ | ⟨b, t1, rfl, hs, e⟩ |
    ⟨b, c, t2, rfl, hs, e⟩ | ⟨b, c, d, t3, rfl, hs, e⟩
  · rw [e] at h
    simp only [List.length_cons] at h h2
    omega
  · rw [e] at h
    simp only [List.length_cons] at h h2
    omega
  · rw [e] at h
    have : t1 = [] := by
      simp only [List.length_cons] at h
      exact List.length_eq_zero.mp (by omega)
    subst this
    unfold seq2 at hs
    rw [e]
    exact decode_two a b w ⟨hs.1, hs.2.1⟩ ⟨hs.2.2.1, hs.2.2.2⟩
  · rw [e] at h
    have : t2 = [] := by
      simp only [List.length_cons] at h
      exact List.length_eq_zero.mp (by omega)
    subst this
    unfold seq3 at hs
    rw [e]
    exact decode_three a b c w ⟨hs.1, hs.2.1⟩ ⟨hs.2.2.1, hs.2.2.2.1⟩ hs.2.2.2.2.1
      hs.2.2.2.2.2.1 ⟨hs.2.2.2.2.2.2.1, hs.2.2.2.2.2.2.2⟩
  · rw [e] at h
    have : t3 = [] := by
      simp only [List.length_cons] at h
      exact List.length_eq_zero.mp (by omega)
    subst this
    unfold seq4 at hs
    rw [e]
    exact decode_four a b c d w ⟨hs.1, hs.2.1⟩ ⟨hs.2.2.1, hs.2.2.2.1⟩ hs.2.2.2.2.1
      hs.2.2.2.2.2.1 ⟨hs.2.2.2.2.2.2.1, hs.2.2.2.2.2.2.2.1⟩
      ⟨hs.2.2.2.2.2.2.2.2.1, hs.2.2.2.2.2.2.2.2.2⟩

theorem trailLen_ws1 (c : Fin 256) (t : GoString) (h : whiteSpace1 c = true) :
    trailLen (c :: t) = 1 := by
  simp [trailLen, h]

theorem trailLen_ws2 (c b : Fin 256) (t : GoString) (h : whiteSpace2 b c = true) :
    trailLen (c :: b :: t) = 2 := by
  have h1 : whiteSpace1 c = false := by
    rw [whiteSpace2_iff] at h
    rw [← Bool.not_eq_true, whiteSpace1_iff]
    omega
  simp [trailLen, h, h1]

theorem trailLen_ws3 (c b a : Fin 256) (t : GoString) (h : whiteSpace3 a b c = true) :
    trailLen (c :: b :: a :: t) = 3 := by
  have h1 : whiteSpace1 c = false := by
    rw [whiteSpace3_iff] at h
    rw [← Bool.not_eq_true, whiteSpace1_iff]
    omega
  have h2 : whiteSpace2 b c = false := by
    rw [whiteSpace3_iff] at h
    rw [← Bool.not_eq_true, whiteSpace2_iff]
    omega
  simp [trailLen, h, h1, h2]

/-- A string with a white space character at its back has one of three shapes. -/
theorem trailLen_ne_zero (rev : GoString) (h : trailLen rev ≠ 0) :
    (∃ c t, rev = c :: t ∧ whiteSpace1 c = true ∧ trailLen rev = 1) ∨
    (∃ c b t, rev = c :: b :: t ∧ whiteSpace2 b c = true ∧ trailLen rev = 2) ∨
    (∃ c b a t, rev = c :: b :: a :: t ∧ whiteSpace3 a b c = true ∧ trailLen rev = 3) := by
  rcases rev with _ | ⟨c, t⟩
  · simp [trailLen] at h
  by_cases h1 : whiteSpace1 c = true
  · exact Or.inl ⟨c, t, rfl, h1, trailLen_ws1 c t h1⟩
  rcases t with _ | ⟨b, t1⟩
  · simp [trailLen, h1] at h
  by_cases h2 : whiteSpace2 b c = true
  · exact Or.inr (Or.inl ⟨c, b, t1, rfl, h2, trailLen_ws2 c b t1 h2⟩)
  rcases t1 with _ | ⟨a, t2⟩
  · simp [trailLen, h1, h2] at h
  by_cases h3 : whiteSpace3 a b c = true
  · exact Or.inr (Or.inr ⟨c, b, a, t2, rfl, h3, trailLen_ws3 c b a t2 h3⟩)
  · simp [trailLen, h1, h2, h3] at h

theorem trailLen_le (rev : GoString) : trailLen rev ≤ rev.length ∧ trailLen rev ≤ 3 := by
  by_cases h : trailLen rev = 0
  · omega
  rcases trailLen_ne_zero rev h with ⟨c, t, rfl, _, e⟩ | ⟨c, b, t, rfl, _, e⟩ |
    ⟨c, b, a, t, rfl, _, e⟩ <;> simp [e]

theorem dropTrailing_step (rev : GoString) :
    dropTrailingWhiteSpaceRev rev =
      if trailLen rev = 0 then rev
      else dropTrailingWhiteSpaceRev (rev.drop (trailLen rev)) := by
  by_cases h : trailLen rev = 0
  · rw [if_pos h]
    rcases rev with _ | ⟨c, t⟩
    · rfl
    have h1 : whiteSpace1 c = false := by
      by_contra hc
      rw [trailLen_ws1 c t (by simpa using hc)] at h
      omega
    rcases t with _ | ⟨b, t1⟩
    · simp [dropTrailingWhiteSpaceRev, h1]
    have h2 : whiteSpace2 b c = false := by
      by_contra hc
      rw [trailLen_ws2 c b t1 (by simpa using hc)] at h
      omega
    rcases t1 with _ | ⟨a, t2⟩
    · simp [dropTrailingWhiteSpaceRev, h1, h2]
    have h3 : whiteSpace3 a b c = false := by
      by_contra hc
      rw [trailLen_ws3 c b a t2 (by simpa using hc)] at h
      omega
    simp [dropTrailingWhiteSpaceRev, h1, h2, h3]
  · rw [if_neg h]
    rcases trailLen_ne_zero rev h with ⟨c, t, rfl, hw, e⟩ | ⟨c, b, t, rfl, hw, e⟩ |
      ⟨c, b, a, t, rfl, hw, e⟩
    · rw [e]
      rcases t with _ | ⟨b, _ | ⟨a, t2⟩⟩ <;> simp [dropTrailingWhiteSpaceRev, hw]
    · have h1 : whiteSpace1 c = false := by
        rw [whiteSpace2_iff] at hw
        rw [← Bool.not_eq_true, whiteSpace1_iff]
        omega
      rw [e]
      rcases t with _ | ⟨a, t2⟩ <;> simp [dropTrailingWhiteSpaceRev, hw, h1]
    · have h1 : whiteSpace1 c = false := by
        rw [whiteSpace3_iff] at hw
        rw [← Bool.not_eq_true, whiteSpace1_iff]
        omega
      have h2 : whiteSpace2 b c = false := by
        rw [whiteSpace3_iff] at hw
        rw [← Bool.not_eq_true, whiteSpace2_iff]
        omega
      rw [e]
      simp [dropTrailingWhiteSpaceRev, hw, h1, h2]

/-- The bytes of the white space character at the back of a string, in reading order,
are a white space character at the front of a string, and the backward scan of
`DecodeLastRuneInString` stops at its first byte. -/
theorem trailLen_shape (rev : GoString) (h : trailLen rev ≠ 0) :
    backLen rev = trailLen rev ∧ leadLen ((rev.take (trailLen rev)).reverse) = trailLen rev := by
  rcases trailLen_ne_zero rev h with ⟨c, t, rfl, hw, e⟩ | ⟨c, b, t, rfl, hw, e⟩ |
    ⟨c, b, a, t, rfl, hw, e⟩
  · rw [e]
    have hc : c.val < 0x80 := by
      rw [whiteSpace1_iff] at hw
      omega
    constructor
    · rcases t with _ | ⟨b, t⟩ <;> simp [backLen, hc]
    · simpa using leadLen_ws1 c [] hw
  · rw [e]
    rw [whiteSpace2_iff] at hw
    have hc : ¬ c.val < 0x80 := by omega
    have hb : RuneStart b = true := by
      by_contra hn
      have := (RuneStart_false_iff b).mp (by simpa using hn)
      omega
    constructor
    · simp [backLen, hc, hb]
    · simpa using leadLen_ws2 b c [] ((whiteSpace2_iff b c).mpr hw)
  · rw [e]
    have hw' := hw
    rw [whiteSpace3_iff] at hw
    have hc : ¬ c.val < 0x80 := by omega
    have hb : RuneStart b = false := (RuneStart_false_iff b).mpr (by omega)
    have ha : RuneStart a = true := by
      by_contra hn
      have := (RuneStart_false_iff a).mp (by simpa using hn)
      omega
    constructor
    · simp [backLen, hc, hb, ha]
    · simpa using leadLen_ws3 a b c [] hw'

/-- When the last bytes that `DecodeLastRuneInString` decodes are exactly a white space
character, the string ends with that character. -/
theorem trailLen_of_leadLen (rev : GoString) (k : Nat) (hk : k ≤ rev.length) (hk0 : k ≠ 0)
    (h : leadLen ((rev.take k).reverse) = k) : trailLen rev = k := by
  have hlen : ((rev.take k).reverse).length = k := by simp [hk]
  have hne : leadLen ((rev.take k).reverse) ≠ 0 := by omega
  rcases leadLen_ne_zero _ hne with ⟨a, t, he, hw, e⟩ | ⟨a, b, t, he, hw, e⟩ |
    ⟨a, b, c, t, he, hw, e⟩
  · have hk1 : k = 1 := by omega
    subst hk1
    rcases rev with _ | ⟨x, r⟩
    · simp at hk
    simp only [List.take, List.reverse_cons, List.reverse_nil, List.nil_append,
      List.cons.injEq] at he
    obtain ⟨rfl, _⟩ := he
    exact trailLen_ws1 x r hw
  · have hk2 : k = 2 := by omega
    subst hk2
    rcases rev with _ | ⟨x, _ | ⟨y, r⟩⟩
    · simp at hk
    · simp at hk
    simp only [List.take, List.reverse_cons, List.reverse_nil, List.nil_append,
      List.cons_append, List.cons.injEq] at he
    obtain ⟨rfl, rfl, _⟩ := he
    exact trailLen_ws2 x y r hw
  · have hk3 : k = 3 := by omega
    subst hk3
    rcases rev with _ | ⟨x, _ | ⟨y, _ | ⟨z, r⟩⟩⟩
    · simp at hk
    · simp at hk
    · simp at hk
    simp only [List.take, List.reverse_cons, List.reverse_nil, List.nil_append,
      List.cons_append, List.cons.injEq] at he
    obtain ⟨rfl, rfl, rfl, _⟩ := he
    exact trailLen_ws3 x y z r hw

theorem decodeLast_of_trailLen (rev : GoString) (h : trailLen rev ≠ 0) :
    IsSpace (DecodeLastRuneInString rev.reverse).1 = true ∧
      (DecodeLastRuneInString rev.reverse).2 = trailLen rev := by
  obtain ⟨hb, hl⟩ := trailLen_shape rev h
  have hne : rev ≠ [] := by
    rintro rfl
    simp [trailLen] at h
  obtain ⟨hs, hsz⟩ := decode_of_leadLen ((rev.take (trailLen rev)).reverse) (by omega)
  rw [decodeLast_backLen rev hne, hb]
  rw [hl] at hsz
  simp only [hsz, ne_eq, not_true_eq_false, if_false]
  exact ⟨hs, trivial⟩

theorem trailLen_of_decodeLast (rev : GoString) (hne : rev ≠ [])
    (h : IsSpace (DecodeLastRuneInString rev.reverse).1 = true) : trailLen rev ≠ 0 := by
  rw [decodeLast_backLen rev hne] at h
  obtain ⟨b, t, rfl⟩ := List.exists_cons_of_ne_nil hne
  have hpos := backLen_pos b t
  have hle := backLen_le (b :: t)
  by_cases hc : (DecodeRuneInString ((b :: t).take (backLen (b :: t))).reverse).2 =
      backLen (b :: t)
  · simp only [hc, ne_eq, not_true_eq_false, if_false] at h
    have h0 := leadLen_of_decode _ h
    have h1 := (decode_of_leadLen _ h0).2
    have h2 := trailLen_of_leadLen (b :: t) (backLen (b :: t)) hle.1 (by omega) (by omega)
    omega
  · simp [hc, IsSpace, RuneError] at h

theorem decodeLast_size (rev : GoString) (hne : rev ≠ []) :
    1 ≤ (DecodeLastRuneInString rev.reverse).2 ∧
      (DecodeLastRuneInString rev.reverse).2 ≤ rev.length := by
  rw [decodeLast_backLen rev hne]
  obtain ⟨b, t, rfl⟩ := List.exists_cons_of_ne_nil hne
  have hpos := backLen_pos b t
  have hle := backLen_le (b :: t)
  by_cases hc : (DecodeRuneInString ((b :: t).take (backLen (b :: t))).reverse).2 =
      backLen (b :: t)
  · simp only [hc, ne_eq, not_true_eq_false, if_false]
    omega
  · simp only [hc, ne_eq, not_false_eq_true, if_true, List.length_cons]
    omega

theorem lastIndexFuncFrom_skip (f : Nat → Bool) (truth : Bool) (k : Nat) :
    ∀ (rev : GoString),
      lastIndexFuncFrom f truth k rev = lastIndexFuncFrom f truth 0 (rev.drop k) := by
  induction k with
  | zero => intro rev; simp
  | succ k ih =>
    intro rev
    cases rev with
    | nil => simp [lastIndexFuncFrom]
    | cons x t =>
      rw [lastIndexFuncFrom, ih t]
      simp

/-- The loop of `lastIndexFunc` for `IsSpace` stops at the last rune before the trailing
white space; what it passes over is white space, so what follows the rest of the string
is empty or starts with a byte that is no continuation byte. -/
theorem lastIndexFuncFrom_space (n : Nat) :
    ∀ (rev : GoString), rev.length ≤ n →
      (dropTrailingWhiteSpaceRev rev = [] →
        lastIndexFuncFrom IsSpace false 0 rev = -1) ∧
      (dropTrailingWhiteSpaceRev rev ≠ [] →
        lastIndexFuncFrom IsSpace false 0 rev =
          (((dropTrailingWhiteSpaceRev rev).length -
            (DecodeLastRuneInString (dropTrailingWhiteSpaceRev rev).reverse).2 : Nat) : Int)) ∧
      (∃ w : GoString, rev.reverse = (dropTrailingWhiteSpaceRev rev).reverse ++ w ∧
        (w = [] ∨ ∃ h t, w = h :: t ∧ (h.val < 0x80 ∨ 0xBF < h.val))) := by
  induction n with
  | zero =>
    intro rev hl
    have : rev = [] := List.length_eq_zero.mp (by omega)
    subst this
    simp [dropTrailingWhiteSpaceRev, lastIndexFuncFrom]
  | succ n ih =>
    intro rev hl
    rcases rev with _ | ⟨b, t⟩
    · simp [dropTrailingWhiteSpaceRev, lastIndexFuncFrom]
    by_cases h : trailLen (b :: t) = 0
    · have hns : IsSpace (DecodeLastRuneInString (b :: t).reverse).1 = false := by
        by_contra hc
        exact trailLen_of_decodeLast _ (by simp) (by simpa using hc) h
      have hd : dropTrailingWhiteSpaceRev (b :: t) = b :: t := by
        rw [dropTrailing_step, if_pos h]
      rw [hd]
      refine ⟨?_, ?_, ⟨[], by simp, Or.inl rfl⟩⟩
      · intro hc
        simp at hc
      · intro _
        rw [lastIndexFuncFrom]
        simp only [hns, if_true]
    · obtain ⟨hs, hsz⟩ := decodeLast_of_trailLen _ h
      have hle := trailLen_le (b :: t)
      have hd : dropTrailingWhiteSpaceRev (b :: t) =
          dropTrailingWhiteSpaceRev ((b :: t).drop (trailLen (b :: t))) := by
        rw [dropTrailing_step (b :: t), if_neg h]
      have hidx : lastIndexFuncFrom IsSpace false 0 (b :: t) =
          lastIndexFuncFrom IsSpace false 0 ((b :: t).drop (trailLen (b :: t))) := by
        rw [lastIndexFuncFrom]
        simp only [hs, Bool.true_eq_false, if_false, hsz]
        rw [lastIndexFuncFrom_skip]
        obtain ⟨m, hm⟩ : ∃ m, trailLen (b :: t) = m + 1 := ⟨trailLen (b :: t) - 1, by omega⟩
        rw [hm]
        simp only [Nat.add_sub_cancel, List.drop_succ_cons]
      have hlen : ((b :: t).drop (trailLen (b :: t))).length ≤ n := by
        simp only [List.length_drop, List.length_cons] at hl ⊢
        omega
      obtain ⟨ih1, ih2, w, hw1, hw2⟩ := ih _ hlen
      rw [hd, hidx]
      refine ⟨ih1, ih2, ?_⟩
      obtain ⟨_, hlead⟩ := trailLen_shape _ h
      refine ⟨w ++ ((b :: t).take (trailLen (b :: t))).reverse, ?_, ?_⟩
      · rw [← List.append_assoc, ← hw1, ← List.reverse_append, List.take_append_drop]
      · rcases hw2 with rfl | ⟨x, r, rfl, hx⟩
        · right
          have hne : leadLen ((b :: t).take (trailLen (b :: t))).reverse ≠ 0 := by omega
          rcases leadLen_ne_zero _ hne with ⟨a, t', he, hw, _⟩ | ⟨a, a2, t', he, hw, _⟩ |
            ⟨a, a2, a3, t', he, hw, _⟩
          · rw [whiteSpace1_iff] at hw
            exact ⟨a, t', by simpa using he, by omega⟩
          · rw [whiteSpace2_iff] at hw
            exact ⟨a, a2 :: t', by simpa using he, by omega⟩
          · rw [whiteSpace3_iff] at hw
            exact ⟨a, a2 :: a3 :: t', by simpa using he, by omega⟩
        · right
          exact ⟨x, r ++ ((b :: t).take (trailLen (b :: t))).reverse, by simp, hx⟩

theorem getD_of_drop (l : GoString) (i : Nat) (x : Fin 256) (r : GoString)
    (h : l.drop i = x :: r) : l.getD i 0 = x := by
  induction i generalizing l with
  | zero =>
    simp only [List.drop_zero] at h
    subst h
    rfl
  | succ i ih =>
    cases l with
    | nil => simp at h
    | cons a t => simpa using ih t (by simpa using h)

/-- The last step of `TrimRightFunc`: from the index of the last rune that is kept, the
width of that rune leads to the end of the part that is kept. -/
theorem trimRight_final (p w : GoString) (hp : p ≠ [])
    (hw : w = [] ∨ ∃ h t, w = h :: t ∧ (h.val < 0x80 ∨ 0xBF < h.val)) :
    (if RuneSelf ≤ ((p.reverse ++ w).getD
          (p.length - (DecodeLastRuneInString p.reverse).2) 0).val
      then p.length - (DecodeLastRuneInString p.reverse).2 +
        (DecodeRuneInString ((p.reverse ++ w).drop
          (p.length - (DecodeLastRuneInString p.reverse).2))).2
      else p.length - (DecodeLastRuneInString p.reverse).2 + 1) = p.length := by
  obtain ⟨hs1, hs2⟩ := decodeLast_size p hp
  obtain ⟨b, t, rfl⟩ := List.exists_cons_of_ne_nil hp
  have hpos := backLen_pos b t
  have hle := backLen_le (b :: t)
  have hdrop : ∀ k, 1 ≤ k → k ≤ (b :: t).length →
      ((b :: t).reverse ++ w).drop ((b :: t).length - k) = ((b :: t).take k).reverse ++ w := by
    intro k _ hk
    rw [List.drop_append_of_le_length (by simp), List.drop_reverse]
    congr 3
    omega
  have hone : ((b :: t).take 1).reverse = [b] := by simp
  -- the case of width one
  have hcase1 : (DecodeLastRuneInString (b :: t).reverse).2 = 1 →
      (if RuneSelf ≤ (((b :: t).reverse ++ w).getD
            ((b :: t).length - (DecodeLastRuneInString (b :: t).reverse).2) 0).val
        then (b :: t).length - (DecodeLastRuneInString (b :: t).reverse).2 +
          (DecodeRuneInString (((b :: t).reverse ++ w).drop
            ((b :: t).length - (DecodeLastRuneInString (b :: t).reverse).2))).2
        else (b :: t).length - (DecodeLastRuneInString (b :: t).reverse).2 + 1) =
      (b :: t).length := by
    intro h1
    rw [h1, hdrop 1 (Nat.le_refl 1) (by simp), hone]
    simp only [List.singleton_append, decode_size_one b w hw, ite_self, List.length_cons]
    omega
  rw [decodeLast_backLen (b :: t) hp] at hs1 hs2 ⊢
  by_cases hc : (DecodeRuneInString ((b :: t).take (backLen (b :: t))).reverse).2 =
      backLen (b :: t)
  · by_cases hk : backLen (b :: t) = 1
    · have := hcase1
      rw [decodeLast_backLen (b :: t) hp] at this
      apply this
      simp only [hc, ne_eq, not_true_eq_false, if_false]
      exact hk
    · simp only [hc, ne_eq, not_true_eq_false, if_false]
      have hk2 : 2 ≤ backLen (b :: t) := by omega
      rw [hdrop _ hpos hle.1]
      obtain ⟨x, r, hx⟩ : ∃ x r, ((b :: t).take (backLen (b :: t))).reverse = x :: r := by
        have hl : (((b :: t).take (backLen (b :: t))).reverse).length = backLen (b :: t) := by
          simp only [List.length_reverse, List.length_take]
          omega
        rcases hrev : ((b :: t).take (backLen (b :: t))).reverse with _ | ⟨x, r⟩
        · rw [hrev] at hl
          simp at hl
          omega
        · exact ⟨x, r, rfl⟩
      have hlen : (((b :: t).take (backLen (b :: t))).reverse).length = backLen (b :: t) := by
        simp only [List.length_reverse, List.length_take]
        omega
      have happ := decode_append (((b :: t).take (backLen (b :: t))).reverse) w
        (by rw [hc, hlen]) (by rw [hlen]; exact hk2)
      have hlead : 0xC2 ≤ x.val := by
        have := (decode_size_bounds x r).2.2
        rw [← hx, hc] at this
        exact this hk2
      have hget : (((b :: t).reverse ++ w).getD ((b :: t).length - backLen (b :: t)) 0) = x := by
        apply getD_of_drop _ _ x (r ++ w)
        rw [hdrop _ hpos hle.1, hx]
        rfl
      rw [hget, happ, hc]
      have hrs : RuneSelf ≤ x.val := by
        unfold RuneSelf
        omega
      simp only [hrs, if_true]
      omega
  · have := hcase1
    rw [decodeLast_backLen (b :: t) hp] at this
    apply this
    simp [hc]

theorem TrimRightFunc_IsSpace (s : GoString) :
    TrimRightFunc s IsSpace = dropTrailingWhiteSpace s := by
  obtain ⟨h1, h2, w, hw1, hw2⟩ := lastIndexFuncFrom_space s.reverse.length s.reverse
    (Nat.le_refl _)
  rw [List.reverse_reverse] at hw1
  unfold TrimRightFunc lastIndexFunc dropTrailingWhiteSpace
  by_cases he : dropTrailingWhiteSpaceRev s.reverse = []
  · rw [h1 he, he]
    simp
  · rw [h2 he]
    have hfin := trimRight_final (dropTrailingWhiteSpaceRev s.reverse) w he hw2
    rw [← hw1] at hfin
    have hnn : (0 : Int) ≤ (((dropTrailingWhiteSpaceRev s.reverse).length -
        (DecodeLastRuneInString (dropTrailingWhiteSpaceRev s.reverse).reverse).2 : Nat) : Int) :=
      Int.ofNat_nonneg _
    have htake : s.take (dropTrailingWhiteSpaceRev s.reverse).length =
        (dropTrailingWhiteSpaceRev s.reverse).reverse := by
      have := List.take_left (dropTrailingWhiteSpaceRev s.reverse).reverse w
      rw [List.length_reverse, ← hw1] at this
      exact this
    simp only [hnn, true_and, Int.toNat_ofNat]
    split_ifs at hfin ⊢ with hc
    · rw [hfin, htake]
    · have : ((((dropTrailingWhiteSpaceRev s.reverse).length -
          (DecodeLastRuneInString (dropTrailingWhiteSpaceRev s.reverse).reverse).2 : Nat) : Int)
            + 1).toNat = (dropTrailingWhiteSpaceRev s.reverse).length -
          (DecodeLastRuneInString (dropTrailingWhiteSpaceRev s.reverse).reverse).2 + 1 := by
        omega
      rw [this, hfin, htake]

theorem asciiSpace_eq (c : Fin 256) : asciiSpace c = whiteSpace1 c := by
  simp [asciiSpace, whiteSpace1]

theorem leadLen_ascii (c : Fin 256) (t : GoString) (hc : c.val < 0x80)
    (hs : whiteSpace1 c = false) : leadLen (c :: t) = 0 := by
  by_contra h
  rcases leadLen_ne_zero _ h with ⟨a, t', he, hw, _⟩ | ⟨a, b, t', he, hw, _⟩ |
    ⟨a, b, c', t', he, hw, _⟩
  · cases he
    rw [hs] at hw
    cases hw
  · cases he
    rw [whiteSpace2_iff] at hw
    omega
  · cases he
    rw [whiteSpace3_iff] at hw
    omega

theorem trailLen_ascii (c : Fin 256) (t : GoString) (hc : c.val < 0x80)
    (hs : whiteSpace1 c = false) : trailLen (c :: t) = 0 := by
  by_contra h
  rcases trailLen_ne_zero _ h with ⟨x, t', he, hw, _⟩ | ⟨x, b, t', he, hw, _⟩ |
    ⟨x, b, a, t', he, hw, _⟩
  · cases he
    rw [hs] at hw
    cases hw
  · cases he
    rw [whiteSpace2_iff] at hw
    omega
  · cases he
    rw [whiteSpace3_iff] at hw
    omega

theorem trimSpaceStop_eq (rev : GoString) :
    trimSpaceStop rev = (dropTrailingWhiteSpaceRev rev).reverse := by
  induction rev with
  | nil => rfl
  | cons c t ih =>
    unfold trimSpaceStop
    by_cases hc : RuneSelf ≤ c.val
    · rw [if_pos hc, TrimRightFunc_IsSpace]
      simp [dropTrailingWhiteSpace]
    · rw [if_neg hc]
      have hlt : c.val < 0x80 := by
        unfold RuneSelf at hc
        omega
      cases hs : whiteSpace1 c with
      | false =>
        have h0 := trailLen_ascii c t hlt hs
        rw [dropTrailing_step, if_pos h0]
        simp [asciiSpace_eq, hs]
      | true =>
        have h1 := trailLen_ws1 c t hs
        rw [dropTrailing_step (c :: t), h1]
        simp [asciiSpace_eq, hs, ih]

/-- The function `strings.TrimSpace` trims in the plain sense: it drops the white space
characters at the front of the string and those at its back. -/
theorem TrimSpace_eq_trimWhiteSpace (s : GoString) : TrimSpace s = trimWhiteSpace s := by
  induction s with
  | nil => rfl
  | cons c t ih =>
    unfold TrimSpace
    by_cases hc : RuneSelf ≤ c.val
    · rw [if_pos hc]
      unfold TrimFunc trimWhiteSpace
      rw [TrimLeftFunc_IsSpace, TrimRightFunc_IsSpace]
    · rw [if_neg hc]
      have hlt : c.val < 0x80 := by
        unfold RuneSelf at hc
        omega
      cases hs : whiteSpace1 c with
      | false =>
        have h0 := leadLen_ascii c t hlt hs
        unfold trimWhiteSpace dropTrailingWhiteSpace
        rw [dropLeading_step, if_pos h0]
        simp [asciiSpace_eq, hs, trimSpaceStop_eq]
      | true =>
        have h1 := leadLen_ws1 c t hs
        unfold trimWhiteSpace
        rw [dropLeading_step (c :: t), h1]
        simp only [asciiSpace_eq, hs, Bool.not_true, Bool.false_eq_true, if_false, ih]
        simp [trimWhiteSpace]

/-- Worked examples: a no-break space (`C2 A0`) and an ideographic space (`E3 80 80`)
around the key are trimmed, a scheme is removed once only, and the outcome of the
authentication follows. -/
theorem authenticateStaticSecretKey_examples :
    trimWhiteSpace (str "\u00a0 s3cret\u3000\t") = str "s3cret" ∧
      TrimSpace (str "\u00a0 s3cret\u3000\t") = str "s3cret" ∧
      authenticateStaticSecretKey ⟨true, str "Authorization", str "Bearer", str "s3cret"⟩
        (str "Bearer s3cret\u00a0") = none ∧
      authenticateStaticSecretKey ⟨true, str "Authorization", str "Bearer", str "s3cret"⟩
        (str "Bearer Bearer s3cret") = some ErrInvalidAuthCredentials ∧
      authenticateStaticSecretKey ⟨true, str "Authorization", str "Bearer", str "s3cret"⟩
        (str "s3cret") = none ∧
      authenticateStaticSecretKey ⟨true, str "Authorization", str "Bearer", str "s3cret"⟩
        (str "Bearer s3cre") = some ErrInvalidAuthCredentials := by
  decide

/-- Claim C10: `authenticateStaticSecretKey` returns `nil` exactly when the presented
value, after removing at most one leading occurrence of the scheme followed by a single
space and then trimming leading and trailing white space, is byte for byte the secret
key; in every other case it returns `ErrInvalidAuthCredentials`. -/
theorem authenticateStaticSecretKey_spec (auth : AuthConfig) (val : GoString) :
    (authenticateStaticSecretKey auth val = none ↔
        trimWhiteSpace (stripSchemeOnce val auth.Scheme) = auth.SecretKey) ∧
      authenticateStaticSecretKey auth val =
        if trimWhiteSpace (stripSchemeOnce val auth.Scheme) = auth.SecretKey then none
        else some ErrInvalidAuthCredentials := by
  have key : authenticateStaticSecretKey auth val =
      if trimWhiteSpace (stripSchemeOnce val auth.Scheme) = auth.SecretKey then none
      else some ErrInvalidAuthCredentials := by
    unfold authenticateStaticSecretKey
    simp only [CutPrefix_eq_stripSchemeOnce, ne_eq, ConstantTimeCompare_eq_one_iff,
      TrimSpace_eq_trimWhiteSpace]
    by_cases h : trimWhiteSpace (stripSchemeOnce val auth.Scheme) = auth.SecretKey
    · simp [h]
    · simp [h]
  refine ⟨?_, key⟩
  rw [key]
  by_cases h : trimWhiteSpace (stripSchemeOnce val auth.Scheme) = auth.SecretKey
  · simp [h]
  · simp [h]

end KnxMetrics
